import Mathlib

/-!
Verification of the GoodLife ORB trading simulator core.

This file is a shallow embedding, in Lean 4, of the JavaScript core of the
repository: the seeded PRNG and the synthetic candle generator
(`js/market-data.js`), the ORB strategy engine (`js/orp-strategy.js`) and the
backtesting engine (`js/backtester.js`).  JavaScript numbers are modelled as
rationals (`ℚ`); `Number.prototype.toFixed(k)` followed by `parseFloat`, and
`Math.round`/`Math.floor`, are modelled exactly on rationals (round half
toward `+∞`, matching the ECMAScript "pick the larger n" tie-break).
Transcendental functions (`Math.exp`, `Math.log`, `Math.cos`, `Math.sqrt`)
and the constant `Math.PI` are abstracted as parameters: every theorem below
holds for an arbitrary interpretation of them, which in particular covers the
IEEE-754 functions used by the engine.

The file is organised as: all definitions first (numeric primitives, PRNG,
market data generator, strategy engine, backtester), then all theorems.
-/

set_option linter.unusedVariables false

namespace GoodLife

/-! ## Definitions -/

/-! ### JavaScript numeric primitives -/

/-- `Math.floor` on a rational, as an integer. -/
def jsFloor (x : ℚ) : ℤ := ⌊x⌋

/-- `Math.round` on a rational: round half toward `+∞`. -/
def jsRound (x : ℚ) : ℤ := ⌊x + 1/2⌋

/-- `parseFloat(x.toFixed(k))` for a rational `x`: round to `k` decimal
places, ties toward `+∞` (ECMAScript `toFixed` picks the larger candidate). -/
def roundTo (k : ℕ) (x : ℚ) : ℚ := (⌊x * (10:ℚ)^k + 1/2⌋ : ℚ) / (10:ℚ)^k

/-- `parseFloat(x.toFixed(2))`. -/
def round2 (x : ℚ) : ℚ := roundTo 2 x

/-- `parseFloat(x.toFixed(3))`. -/
def round3 (x : ℚ) : ℚ := roundTo 3 x

/-! ### Seeded PRNG (`js/market-data.js`, `seededRandom`)

```js
function seededRandom(seed) {
  let s = seed;
  return function() {
    s = (s * 1664525 + 1013904223) & 0xFFFFFFFF;
    return (s >>> 0) / 0xFFFFFFFF;
  };
}
```

The closure state `s` is modelled as a natural number; `& 0xFFFFFFFF`
followed by `>>> 0` is the reduction modulo `2^32` (exact for the seeds of
this system, whose products stay below `2^53`). -/

/-- One LCG state update: `(s * 1664525 + 1013904223) & 0xFFFFFFFF`. -/
def lcgNext (s : ℕ) : ℕ := (s * 1664525 + 1013904223) % 2^32

/-- The value returned for state `s`: `(s >>> 0) / 0xFFFFFFFF`. -/
def lcgValue (s : ℕ) : ℚ := (s : ℚ) / (2^32 - 1)

/-- The stream object returned by `seededRandom`: a closure owning state. -/
structure RandStream where
  state : ℕ
  deriving Repr, DecidableEq

/-- `seededRandom(seed)`: a fresh stream whose captured state is the seed. -/
def seededRandom (seed : ℕ) : RandStream := ⟨seed⟩

/-- Calling the closure once: update the state, return the value. -/
def RandStream.next (r : RandStream) : ℚ × RandStream :=
  let s := lcgNext r.state
  (lcgValue s, ⟨s⟩)

/-- The stream after `n` calls. -/
def RandStream.afterCalls (r : RandStream) : ℕ → RandStream
  | 0 => r
  | n + 1 => ((r.afterCalls n).next).2

/-- The value produced by the `n`-th call (0-indexed) on `seededRandom seed`. -/
def seededRandomCall (seed n : ℕ) : ℚ :=
  (((seededRandom seed).afterCalls n).next).1

/-- The recurrence as the specification states it: the state after the
`n`-th call is the `(n+1)`-fold iterate of
`state ↦ (state*1664525 + 1013904223) mod 2^32` on the seed, and the value
is that state divided by `2^32 − 1`. -/
def specLcgState (seed n : ℕ) : ℕ := lcgNext^[n + 1] seed

/-! ### Market data generator (`js/market-data.js`)

Transcendental `Math` functions are abstracted as an interpretation
structure; JavaScript `Date` arithmetic is modelled by passing the epoch
milliseconds of 09:30 on the requested day (`dayStart`).  The `timeStr`
field (an ISO timestamp string derived from `time`) is omitted. -/

/-- Abstract interpretation of `Math.exp`, `Math.log`, `Math.cos`,
`Math.sqrt` and the constant `Math.PI`. -/
structure RealOps where
  exp : ℚ → ℚ
  log : ℚ → ℚ
  cos : ℚ → ℚ
  sqrt : ℚ → ℚ
  pi : ℚ

/-- One entry of `STOCK_PROFILES`. -/
structure StockProfile where
  name : String
  basePrice : ℚ
  volatility : ℚ
  avgVolume : ℚ
  sector : String
  deriving Repr, DecidableEq

/-- The `STOCK_PROFILES` table, keyed by ticker. -/
def STOCK_PROFILES : List (String × StockProfile) :=
  [ ("AAPL", ⟨"Apple Inc.", 189.50, 0.018, 55000000, "Technology"⟩),
    ("MSFT", ⟨"Microsoft Corp.", 415.20, 0.016, 22000000, "Technology"⟩),
    ("GOOGL", ⟨"Alphabet Inc.", 175.80, 0.020, 25000000, "Technology"⟩),
    ("AMZN", ⟨"Amazon.com Inc.", 198.40, 0.022, 48000000, "Consumer Cyclical"⟩),
    ("TSLA", ⟨"Tesla Inc.", 245.60, 0.035, 95000000, "Automotive"⟩),
    ("NVDA", ⟨"NVIDIA Corp.", 875.30, 0.030, 42000000, "Technology"⟩),
    ("META", ⟨"Meta Platforms", 505.10, 0.024, 18000000, "Technology"⟩),
    ("JPM", ⟨"JPMorgan Chase", 198.70, 0.014, 10000000, "Financial"⟩),
    ("SPY", ⟨"S&P 500 ETF", 512.40, 0.010, 75000000, "ETF"⟩),
    ("QQQ", ⟨"Nasdaq 100 ETF", 438.90, 0.013, 45000000, "ETF"⟩) ]

/-- `normalRandom(rng)`: Box–Muller.  The JS re-draw loop
`while (u1 === 0) u1 = rng();` runs at most once, because `u1 = 0` forces
the closure state to be `0` and the next state from `0` is
`1013904223 ≠ 0`; it is therefore modelled as a single conditional
re-draw. -/
def normalRandom (ops : RealOps) (rng : RandStream) : ℚ × RandStream :=
  let p1 := rng.next
  let p2 := p1.2.next
  let p3 := if p1.1 = 0 then p2.2.next else (p1.1, p2.2)
  (ops.sqrt (-2 * ops.log p3.1) * ops.cos (2 * ops.pi * p2.1), p3.2)

/-- `volumeProfile(minuteOfDay, totalMinutes)`: U-shaped intraday curve. -/
def volumeProfile (ops : RealOps) (minuteOfDay totalMinutes : ℕ) : ℚ :=
  let t : ℚ := (minuteOfDay : ℚ) / (totalMinutes : ℚ)
  ops.exp (-8 * t) * 3 + ops.exp (-8 * (1 - t)) * 2.5 + 0.4

/-- A one-minute OHLCV bar.  The JS field `open` is called `opn` here
(`open` is a Lean keyword); `timeStr` is omitted. -/
structure Candle where
  time : ℤ
  opn : ℚ
  high : ℚ
  low : ℚ
  close : ℚ
  volume : ℤ
  deriving Repr, DecidableEq

/-- Mutable state of the per-minute generation loop.  `orHigh = none`
models the JS initialisation `-Infinity` (and `orLow = none` models
`Infinity`); both are set at minute 0. -/
structure GenState where
  currentPrice : ℚ
  rng : RandStream
  orHigh : Option ℚ
  orLow : Option ℚ

/-- The breakout volume-spike branch
(`if (i >= orPeriod && orHigh !== -Infinity) { if (high > orHigh || low < orLow) baseVol *= 1.8 + rng() * 1.2; }`),
returning the possibly spiked base volume and the stream (advanced only
when the spike fires). -/
def spikeVol (baseVol : ℚ) (i : ℕ) (orHigh orLow : Option ℚ)
    (high low : ℚ) (rng : RandStream) : ℚ × RandStream :=
  match orHigh, orLow with
  | some orH, some orL =>
    if 15 ≤ i ∧ (high > orH ∨ low < orL) then
      let u := rng.next
      (baseVol * (1.8 + u.1 * 1.2), u.2)
    else (baseVol, rng)
  | _, _ => (baseVol, rng)

/-- The body of the `for (let i = 0; i < totalMinutes; i++)` loop of
`generateIntradayData`, producing one candle and the next state. -/
def genMinute (ops : RealOps) (profile : StockProfile) (dayStart : ℤ)
    (totalMinutes : ℕ) (openPrice trendBias : ℚ) (i : ℕ) (st : GenState) :
    Candle × GenState :=
  let vol := profile.volatility
  let time : ℤ := dayStart + i * 60000
  let volMultiplier := volumeProfile ops i totalMinutes
  let minuteVol := vol / ops.sqrt (totalMinutes : ℚ)
  let pn := normalRandom ops st.rng
  let noise := pn.1 * minuteVol * volMultiplier * 0.5
  let trend := trendBias / (totalMinutes : ℚ)
  let meanRev := 0.02 * (openPrice - st.currentPrice) / openPrice * minuteVol
  let priceChange := noise + trend + meanRev
  let opn := st.currentPrice
  let ph := normalRandom ops pn.2
  let intraHigh := opn * (1 + |ph.1 * minuteVol * 0.3|)
  let pl := normalRandom ops ph.2
  let intraLow := opn * (1 - |pl.1 * minuteVol * 0.3|)
  let close := opn * (1 + priceChange)
  let high := max opn (max close intraHigh)
  let low := min opn (min close intraLow)
  -- Track opening range levels (orPeriod = 15)
  let orHigh' := if i < 15 then
      some (match st.orHigh with | none => high | some h => max h high)
    else st.orHigh
  let orLow' := if i < 15 then
      some (match st.orLow with | none => low | some l => min l low)
    else st.orLow
  let baseVol := profile.avgVolume / (totalMinutes : ℚ) * volMultiplier
  -- Spike volume on breakout candles (`i >= orPeriod && orHigh !== -Infinity`)
  let sp := spikeVol baseVol i st.orHigh st.orLow high low pl.2
  let pv := sp.2.next
  let volume := jsRound (sp.1 * (0.5 + pv.1))
  (⟨time, round2 opn, round2 high, round2 low, round2 close, volume⟩,
   ⟨close, pv.2, orHigh', orLow'⟩)

/-- The generation loop: `remaining` iterations starting at minute `i`,
returning the candles and the final state. -/
def genCandles (ops : RealOps) (profile : StockProfile) (dayStart : ℤ)
    (totalMinutes : ℕ) (openPrice trendBias : ℚ) :
    ℕ → ℕ → GenState → List Candle × GenState
  | 0, _, st => ([], st)
  | rem + 1, i, st =>
    let c := genMinute ops profile dayStart totalMinutes openPrice trendBias i st
    let rest := genCandles ops profile dayStart totalMinutes openPrice trendBias rem (i + 1) c.2
    (c.1 :: rest.1, rest.2)

/-- The record returned by `generateIntradayData` (the `date` passthrough
field is represented by `dayStart`). -/
structure DayData where
  ticker : String
  dayStart : ℤ
  preMarketGap : ℚ
  openPrice : ℚ
  closePrice : ℚ
  candles : List Candle
  deriving Repr, DecidableEq

/-- `generateIntradayData(ticker, date, seed, prevClose)`.  An unknown
ticker yields `null`.  `prevClose || profile.basePrice` is falsy-aware:
`prevClose = 0` (or absent) falls back to the base price. -/
def generateIntradayData (ops : RealOps) (ticker : String) (dayStart : ℤ)
    (seed : ℕ) (prevClose : Option ℚ) : Option DayData :=
  match STOCK_PROFILES.lookup ticker with
  | none => none
  | some profile =>
    let rng := seededRandom seed
    let basePrice :=
      match prevClose with
      | some p => if p = 0 then profile.basePrice else p
      | none => profile.basePrice
    let vol := profile.volatility
    let pg := normalRandom ops rng
    let gapPercent := pg.1 * vol * 0.6
    let openPrice := basePrice * (1 + gapPercent)
    let pt := normalRandom ops pg.2
    let trendBias := pt.1 * vol * 0.3
    let res := genCandles ops profile dayStart 390 openPrice trendBias 390 0
      ⟨openPrice, pt.2, none, none⟩
    some ⟨ticker, dayStart, gapPercent, round2 openPrice,
      round2 res.2.currentPrice, res.1⟩

/-- The candle list of a generated day (`[]` for an unknown ticker). -/
def generatedCandles (ops : RealOps) (ticker : String) (dayStart : ℤ)
    (seed : ℕ) (prevClose : Option ℚ) : List Candle :=
  match generateIntradayData ops ticker dayStart seed prevClose with
  | none => []
  | some d => d.candles

/-- OHLC validity of a candle: `low ≤ min(open,close)`,
`max(open,close) ≤ high`, `volume ≥ 0` (integrality of the volume is
carried by its type, as produced by `Math.round`). -/
def candleValid (c : Candle) : Prop :=
  c.low ≤ min c.opn c.close ∧ max c.opn c.close ≤ c.high ∧ 0 ≤ c.volume

/-- A degenerate interpretation of the transcendental functions
(`exp = 1`, `log = cos = sqrt = 0`, `pi = 0`), used to instantiate
hypothetical theorems on concrete inputs. -/
def degenOps : RealOps := ⟨fun _ => 1, fun _ => 0, fun _ => 0, fun _ => 0, 0⟩

/-! ### ORP strategy engine (`js/orp-strategy.js`)

String-valued configuration switches (`confirmationType`,
`positionSizing`) and the exit-reason strings are modelled as enumerations;
`positionSizing === 'fixed_risk' ? … : 100` maps any non-`fixedRisk` value
to the constant 100 share size, exactly as the JS comparison does. -/

/-- `confirmationType`: `'close'` or `'wick'`. -/
inductive ConfirmationType | close | wick
  deriving Repr, DecidableEq

/-- `positionSizing`: `'fixed_risk'` or `'fixed_shares'`. -/
inductive Sizing | fixedRisk | fixedShares
  deriving Repr, DecidableEq

/-- Trade direction. -/
inductive Direction | long | short
  deriving Repr, DecidableEq

/-- The exit-reason strings `'Stop Loss'`, `'Max Time'`, `'Targets Hit'`,
`'End of Day'`. -/
inductive ExitReason | stopLoss | maxTime | targetsHit | endOfDay
  deriving Repr, DecidableEq

/-- The strategy configuration (the JS `DEFAULT_CONFIG` shape).  `runDay`
receives the already-merged configuration. -/
structure Config where
  openingRangeMinutes : ℕ
  confirmationType : ConfirmationType
  volumeConfirmation : Bool
  volumeMultiplier : ℚ
  riskRewardTargets : List ℚ
  positionSizing : Sizing
  riskPerTrade : ℚ
  maxTradesPerDay : ℕ
  trailingStop : Bool
  trailingStopActivation : ℚ
  trailingStopDistance : ℚ
  usePartialProfits : Bool
  partialProfitPercents : List ℚ
  maxHoldingMinutes : ℚ
  avoidFirstMinutes : ℕ
  stopLossBuffer : ℚ
  breakEvenAfterTarget1 : Bool
  deriving Repr, DecidableEq

/-- `DEFAULT_CONFIG`. -/
def DEFAULT_CONFIG : Config where
  openingRangeMinutes := 15
  confirmationType := .close
  volumeConfirmation := true
  volumeMultiplier := 1.5
  riskRewardTargets := [1.5, 2.0, 3.0]
  positionSizing := .fixedRisk
  riskPerTrade := 0.02
  maxTradesPerDay := 2
  trailingStop := true
  trailingStopActivation := 1.0
  trailingStopDistance := 0.5
  usePartialProfits := true
  partialProfitPercents := [0.33, 0.33, 0.34]
  maxHoldingMinutes := 300
  avoidFirstMinutes := 0
  stopLossBuffer := 0.10
  breakEvenAfterTarget1 := true

/-- The opening-range record (`orCandles` passthrough omitted). -/
structure OpeningRange where
  high : ℚ
  low : ℚ
  rangeSize : ℚ
  midpoint : ℚ
  avgVolume : ℚ
  totalVolume : ℤ
  rangeEndTime : ℤ
  openPrice : ℚ
  deriving Repr, DecidableEq

/-- `xs[xs.length - 1]` on a non-empty list given as head and tail. -/
def lastOfCons {α : Type} : α → List α → α
  | c, [] => c
  | _, c :: r => lastOfCons c r

/-- `xs[xs.length - 1]` as an option (`none` on the empty list). -/
def lastElem? {α : Type} : List α → Option α
  | [] => none
  | c :: r => some (lastOfCons c r)

/-- `computeOpeningRange(candles, config)`.  The JS fold starts from
`-Infinity`/`Infinity`; on a non-empty prefix it equals a fold seeded with
the first candle.  For `openingRangeMinutes = 0` the JS code reads
`orCandles[-1].time` and throws; that execution is modelled as `none`
(no claim below constrains it). -/
def computeOpeningRange (candles : List Candle) (config : Config) :
    Option OpeningRange :=
  let orCandles := candles.take config.openingRangeMinutes
  if orCandles.length < config.openingRangeMinutes then none
  else
    match orCandles with
    | [] => none
    | c0 :: rest =>
      let high := rest.foldl (fun h c => if c.high > h then c.high else h) c0.high
      let low := rest.foldl (fun l c => if c.low < l then c.low else l) c0.low
      let totalVolume := (orCandles.map (·.volume)).sum
      let rangeSize := high - low
      let avgVolume := (totalVolume : ℚ) / (orCandles.length : ℚ)
      let midpoint := (high + low) / 2
      let rangeEndTime := (lastOfCons c0 rest).time
      some
        { high := round2 high
          low := round2 low
          rangeSize := round2 rangeSize
          midpoint := round2 midpoint
          avgVolume := (jsRound avgVolume : ℚ)
          totalVolume := totalVolume
          rangeEndTime := rangeEndTime
          openPrice := c0.opn }

/-- `calculatePositionSize(accountSize, riskPercent, entryPrice, stopPrice)`. -/
def calculatePositionSize (accountSize riskPercent entryPrice stopPrice : ℚ) : ℤ :=
  let riskAmount := accountSize * riskPercent
  let riskPerShare := |entryPrice - stopPrice|
  if riskPerShare ≤ 0 then 0 else jsFloor (riskAmount / riskPerShare)

/-- One element of `partialExits`. -/
structure PartialExit where
  time : ℤ
  price : ℚ
  shares : ℤ
  target : ℤ
  pnl : ℚ
  deriving Repr, DecidableEq

/-- The live trade object built at entry. -/
structure ActiveTrade where
  direction : Direction
  entryPrice : ℚ
  entryTime : ℤ
  stopLoss : ℚ
  currentStop : ℚ
  shares : ℤ
  remainingShares : ℤ
  partialExits : List PartialExit
  nextTargetIdx : ℕ
  mfe : ℚ
  mae : ℚ
  deriving Repr, DecidableEq

/-- The frozen trade pushed into `trades` (`{...trade}` at close).  The
end-of-day close never assigns `maxFavorableExcursion`/
`maxAdverseExcursion`, hence those are optional. -/
structure ClosedTrade where
  direction : Direction
  entryPrice : ℚ
  entryTime : ℤ
  stopLoss : ℚ
  currentStop : ℚ
  shares : ℤ
  remainingShares : ℤ
  partialExits : List PartialExit
  nextTargetIdx : ℕ
  mfe : ℚ
  mae : ℚ
  exitTime : ℤ
  exitReason : ExitReason
  totalPnL : ℚ
  durationMinutes : ℤ
  maxFavorableExcursion : Option ℚ
  maxAdverseExcursion : Option ℚ
  deriving Repr, DecidableEq

/-- Signal-log entries.  The ENTRY signal's interpolated reason string is
represented by the opening-range level it quotes. -/
inductive Signal
  | entry (time : ℤ) (direction : Direction) (price stop : ℚ) (shares : ℤ)
      (orLevel : ℚ)
  | partialExit (time : ℤ) (price : ℚ) (target : ℤ) (shares : ℤ)
  | exit (time : ℤ) (direction : Direction) (price : ℚ) (reason : ExitReason)
      (pnl : ℚ)
  deriving Repr, DecidableEq

/-- Whether a signal is an EXIT entry. -/
def Signal.isExit : Signal → Bool
  | .exit _ _ _ _ _ => true
  | _ => false

/-- The reason carried by an EXIT signal (`none` for other signals). -/
def Signal.reasonOf : Signal → Option ExitReason
  | .exit _ _ _ r _ => some r
  | _ => none

/-- The number of EXIT entries in a signal log. -/
def exitSignalCount (sigs : List Signal) : ℕ :=
  (sigs.filter Signal.isExit).length

/-- The total shares recorded across a trade's partial exits. -/
def partialSharesSum (l : List PartialExit) : ℤ :=
  (l.map (·.shares)).sum

/-- `+1` for LONG, `-1` for SHORT (the `direction === 'LONG' ? 1 : -1`
factor). -/
def dirSign : Direction → ℚ
  | .long => 1
  | .short => -1

/-- JS truthiness of the `exitPrice` variable: `null` and `0` are falsy. -/
def exitTruthy : Option (ℚ × ExitReason) → Bool
  | none => false
  | some (p, _) => p ≠ 0

/-- Stop-loss check followed by the max-holding-time check, exactly in the
JS order (the time check runs whenever `exitPrice` is still falsy, and
overwrites both the price and the reason). -/
def exitCheck (config : Config) (t : ActiveTrade) (candle : Candle) :
    Option (ℚ × ExitReason) :=
  let e1 : Option (ℚ × ExitReason) :=
    if t.direction = .long then
      if candle.low ≤ t.currentStop then some (t.currentStop, .stopLoss) else none
    else
      if candle.high ≥ t.currentStop then some (t.currentStop, .stopLoss) else none
  let minutesInTrade := ((candle.time : ℚ) - (t.entryTime : ℚ)) / 60000
  if ¬ exitTruthy e1 ∧ minutesInTrade ≥ config.maxHoldingMinutes then
    some (candle.close, .maxTime)
  else e1

/-- `Math.floor(trade.remainingShares * partialPct / (slice-sum || 1))`:
`partialPct = percents[t] || 0` is the head of the percents suffix and the
denominator is the suffix sum with the `|| 1` fallback. -/
def sharesToCloseOf (percSuffix : List ℚ) (remainingShares : ℤ) : ℤ :=
  jsFloor ((remainingShares : ℚ) * percSuffix.headD 0 /
    (if percSuffix.sum = 0 then 1 else percSuffix.sum))

/-- The mutation performed when a partial target fires: push the partial
exit, reduce the remaining shares, advance the target pointer, and move
the stop to break-even after the first target when configured. -/
def execPartial (config : Config) (candle : Candle) (targetPrice : ℚ)
    (tIdx : ℕ) (stc : ℤ) (t : ActiveTrade) : ActiveTrade :=
  { t with
    partialExits := t.partialExits ++
      [{ time := candle.time
         price := round2 targetPrice
         shares := stc
         target := tIdx + 1
         pnl := round2 (dirSign t.direction * (targetPrice - t.entryPrice) *
           (stc : ℚ)) }]
    remainingShares := t.remainingShares - stc
    nextTargetIdx := tIdx + 1
    currentStop :=
      if tIdx = 0 ∧ config.breakEvenAfterTarget1 then t.entryPrice
      else t.currentStop }

/-- The partial-profit target loop
`for (let t = trade.nextTargetIdx; t < config.riskRewardTargets.length; t++)`,
recursing over the suffixes of the targets and percents lists with the
running index `tIdx`.  Returns the updated trade and the PARTIAL_EXIT
signals pushed. -/
def applyPartialsGo (config : Config) (rangeSize : ℚ) (candle : Candle) :
    List ℚ → List ℚ → ℕ → ActiveTrade → List Signal →
    ActiveTrade × List Signal
  | [], _, _, t, sigs => (t, sigs)
  | targetMultiple :: restTargets, percSuffix, tIdx, t, sigs =>
    let targetPrice :=
      if t.direction = .long then t.entryPrice + rangeSize * targetMultiple
      else t.entryPrice - rangeSize * targetMultiple
    let hit :=
      if t.direction = .long then candle.high ≥ targetPrice
      else candle.low ≤ targetPrice
    if hit then
      let sharesToClose := sharesToCloseOf percSuffix t.remainingShares
      if sharesToClose > 0 then
        applyPartialsGo config rangeSize candle restTargets percSuffix.tail
          (tIdx + 1) (execPartial config candle targetPrice tIdx sharesToClose t)
          (sigs ++ [Signal.partialExit candle.time targetPrice (tIdx + 1) sharesToClose])
      else
        applyPartialsGo config rangeSize candle restTargets percSuffix.tail
          (tIdx + 1) t sigs
    else
      applyPartialsGo config rangeSize candle restTargets percSuffix.tail
        (tIdx + 1) t sigs

/-- Entry point of the partial-profit loop at `trade.nextTargetIdx`. -/
def applyPartials (config : Config) (orr : OpeningRange) (candle : Candle)
    (t : ActiveTrade) : ActiveTrade × List Signal :=
  applyPartialsGo config orr.rangeSize candle
    (config.riskRewardTargets.drop t.nextTargetIdx)
    (config.partialProfitPercents.drop t.nextTargetIdx)
    t.nextTargetIdx t []

/-- The trailing-stop update.  JS computes
`profitMultiple = (candle.high − entry) / rangeSize` (resp. for SHORT);
when `rangeSize = 0` that comparison against the activation threshold is
`+∞ ≥ a` (true), `-∞ ≥ a` (false) or `NaN ≥ a` (false) depending on the
sign of the numerator, which is captured by the `0 < profitRaw` branch. -/
def applyTrailing (config : Config) (orr : OpeningRange) (candle : Candle)
    (t : ActiveTrade) : ActiveTrade :=
  let profitRaw :=
    if t.direction = .long then candle.high - t.entryPrice
    else t.entryPrice - candle.low
  let activated :=
    if orr.rangeSize = 0 then 0 < profitRaw
    else profitRaw / orr.rangeSize ≥ config.trailingStopActivation
  if activated then
    let trailDistance := orr.rangeSize * config.trailingStopDistance
    let newStop :=
      if t.direction = .long then candle.high - trailDistance
      else candle.low + trailDistance
    if t.direction = .long ∧ newStop > t.currentStop then
      { t with currentStop := round2 newStop }
    else if t.direction = .short ∧ newStop < t.currentStop then
      { t with currentStop := round2 newStop }
    else t
  else t

/-- MFE/MAE tracking in the no-exit branch (`trade.mfe || 0` is the JS
guard against `undefined`; the field is initialised to 0 here, and `x || 0`
is the identity on every rational produced by `max` with initial value 0). -/
def trackExcursion (t : ActiveTrade) (candle : Candle) : ActiveTrade :=
  if t.direction = .long then
    { t with
      mfe := max t.mfe (candle.high - t.entryPrice)
      mae := max t.mae (t.entryPrice - candle.low) }
  else
    { t with
      mfe := max t.mfe (t.entryPrice - candle.low)
      mae := max t.mae (candle.high - t.entryPrice) }

/-- The `trades.push({...trade})` record at an in-loop close. -/
def mkClosed (t : ActiveTrade) (candle : Candle)
    (e : Option (ℚ × ExitReason)) : ClosedTrade :=
  { direction := t.direction
    entryPrice := t.entryPrice
    entryTime := t.entryTime
    stopLoss := t.stopLoss
    currentStop := t.currentStop
    shares := t.shares
    remainingShares := t.remainingShares
    partialExits := t.partialExits
    nextTargetIdx := t.nextTargetIdx
    mfe := t.mfe
    mae := t.mae
    exitTime := candle.time
    exitReason := (e.map Prod.snd).getD .targetsHit
    totalPnL := round2 ((t.partialExits.map (·.pnl)).sum)
    durationMinutes := jsRound (((candle.time : ℚ) - (t.entryTime : ℚ)) / 60000)
    maxFavorableExcursion := some t.mfe
    maxAdverseExcursion := some t.mae }

/-- Structural invariant of a live trade: the current stop and the entry
price are cent-exact (they are produced by 2-decimal rounding), and, in
partial-profit mode, the stop is on the loss side of the entry. -/
def ActiveInv (config : Config) (a : ActiveTrade) : Prop :=
  round2 a.currentStop = a.currentStop ∧
  round2 a.entryPrice = a.entryPrice ∧
  (config.usePartialProfits = true →
    (a.direction = .long → a.currentStop ≤ a.entryPrice) ∧
    (a.direction = .short → a.entryPrice ≤ a.currentStop))

/-- Mutable day-level state of the candle loop. -/
structure DayState where
  trades : List ClosedTrade
  signals : List Signal
  active : Option ActiveTrade
  tradesCount : ℕ
  deriving Repr, DecidableEq

/-- Initial day state. -/
def initDayState : DayState := ⟨[], [], none, 0⟩

/-- The candle-loop body for a candle while a trade is active. -/
def processActive (config : Config) (orr : OpeningRange) (s : DayState)
    (candle : Candle) (t0 : ActiveTrade) : DayState :=
  let e := exitCheck config t0 candle
  let pr :=
    if ¬ exitTruthy e ∧ config.usePartialProfits then
      applyPartials config orr candle t0
    else (t0, [])
  let t1 := pr.1
  let t2 :=
    if ¬ exitTruthy e ∧ config.trailingStop ∧ ¬ config.usePartialProfits then
      applyTrailing config orr candle t1
    else t1
  if exitTruthy e ∨ t2.remainingShares ≤ 0 then
    let t3 :=
      if 0 < t2.remainingShares ∧ exitTruthy e then
        let p := (e.map Prod.fst).getD 0
        { t2 with
          partialExits := t2.partialExits ++
            [{ time := candle.time
               price := round2 p
               shares := t2.remainingShares
               target := -1
               pnl := round2 (dirSign t2.direction * (p - t2.entryPrice) *
                 (t2.remainingShares : ℚ)) }]
          remainingShares := 0 }
      else t2
    let cl := mkClosed t3 candle e
    let exitSigPrice :=
      match e with
      | some (p, _) => if p = 0 then candle.close else p
      | none => candle.close
    { trades := s.trades ++ [cl]
      signals := s.signals ++ pr.2 ++
        [Signal.exit candle.time t3.direction exitSigPrice cl.exitReason cl.totalPnL]
      active := none
      tradesCount := s.tradesCount }
  else
    { trades := s.trades
      signals := s.signals ++ pr.2
      active := some (trackExcursion t2 candle)
      tradesCount := s.tradesCount }

/-- The candle-loop body for a candle with no active trade: entry search. -/
def tryEntry (config : Config) (orr : OpeningRange) (accountSize : ℚ)
    (s : DayState) (candle : Candle) : DayState :=
  if s.tradesCount ≥ config.maxTradesPerDay then s
  else
    let volumeOk : Bool := !config.volumeConfirmation ||
      decide ((candle.volume : ℚ) ≥ orr.avgVolume * config.volumeMultiplier)
    let longBreak : Bool :=
      match config.confirmationType with
      | .close => decide (candle.close > orr.high)
      | .wick => decide (candle.high > orr.high)
    let shortBreak : Bool :=
      match config.confirmationType with
      | .close => decide (candle.close < orr.low)
      | .wick => decide (candle.low < orr.low)
    if longBreak && volumeOk then
      let entryPrice :=
        match config.confirmationType with
        | .close => candle.close
        | .wick => orr.high + 0.01
      let stopPrice := orr.low - config.stopLossBuffer
      let shares :=
        match config.positionSizing with
        | .fixedRisk =>
          calculatePositionSize accountSize config.riskPerTrade entryPrice stopPrice
        | .fixedShares => 100
      if shares > 0 then
        { trades := s.trades
          signals := s.signals ++
            [Signal.entry candle.time .long entryPrice stopPrice shares orr.high]
          active := some
            { direction := .long
              entryPrice := round2 entryPrice
              entryTime := candle.time
              stopLoss := round2 stopPrice
              currentStop := round2 stopPrice
              shares := shares
              remainingShares := shares
              partialExits := []
              nextTargetIdx := 0
              mfe := 0
              mae := 0 }
          tradesCount := s.tradesCount + 1 }
      else s
    else if shortBreak && volumeOk then
      let entryPrice :=
        match config.confirmationType with
        | .close => candle.close
        | .wick => orr.low - 0.01
      let stopPrice := orr.high + config.stopLossBuffer
      let shares :=
        match config.positionSizing with
        | .fixedRisk =>
          calculatePositionSize accountSize config.riskPerTrade entryPrice stopPrice
        | .fixedShares => 100
      if shares > 0 then
        { trades := s.trades
          signals := s.signals ++
            [Signal.entry candle.time .short entryPrice stopPrice shares orr.low]
          active := some
            { direction := .short
              entryPrice := round2 entryPrice
              entryTime := candle.time
              stopLoss := round2 stopPrice
              currentStop := round2 stopPrice
              shares := shares
              remainingShares := shares
              partialExits := []
              nextTargetIdx := 0
              mfe := 0
              mae := 0 }
          tradesCount := s.tradesCount + 1 }
      else s
    else s

/-- One iteration of the candle loop. -/
def step (config : Config) (orr : OpeningRange) (accountSize : ℚ)
    (s : DayState) (candle : Candle) : DayState :=
  match s.active with
  | some t0 => processActive config orr s candle t0
  | none => tryEntry config orr accountSize s candle

/-- The end-of-day force close (`if (activeTrade) { … }` after the loop). -/
def endOfDayClose (s : DayState) (lastCandle : Candle) : DayState :=
  match s.active with
  | none => s
  | some t =>
    let exitPrice := lastCandle.close
    let t' : ActiveTrade :=
      { t with
        partialExits := t.partialExits ++
          [{ time := lastCandle.time
             price := exitPrice
             shares := t.remainingShares
             target := -1
             pnl := round2 (dirSign t.direction * (exitPrice - t.entryPrice) *
               (t.remainingShares : ℚ)) }]
        remainingShares := 0 }
    let cl : ClosedTrade :=
      { direction := t'.direction
        entryPrice := t'.entryPrice
        entryTime := t'.entryTime
        stopLoss := t'.stopLoss
        currentStop := t'.currentStop
        shares := t'.shares
        remainingShares := 0
        partialExits := t'.partialExits
        nextTargetIdx := t'.nextTargetIdx
        mfe := t'.mfe
        mae := t'.mae
        exitTime := lastCandle.time
        exitReason := .endOfDay
        totalPnL := round2 ((t'.partialExits.map (·.pnl)).sum)
        durationMinutes :=
          jsRound (((lastCandle.time : ℚ) - (t'.entryTime : ℚ)) / 60000)
        maxFavorableExcursion := none
        maxAdverseExcursion := none }
    { trades := s.trades ++ [cl]
      signals := s.signals
      active := none
      tradesCount := s.tradesCount }

/-- The day summary built at the end of `runDay`. -/
structure DaySummary where
  totalTrades : ℕ
  winners : ℕ
  losers : ℕ
  totalPnL : ℚ
  rangeSize : ℚ
  rangePercent : ℚ
  deriving Repr, DecidableEq

/-- The value returned by `runDay` (no summary when there is no opening
range). -/
structure RunDayResult where
  trades : List ClosedTrade
  openingRange : Option OpeningRange
  signals : List Signal
  summary : Option DaySummary
  deriving Repr, DecidableEq

/-- The day state after processing the first `n` post-range candles
(`initDayState` when the opening range is undefined). -/
def runDayState (candles : List Candle) (config : Config) (accountSize : ℚ)
    (n : ℕ) : DayState :=
  match computeOpeningRange candles config with
  | none => initDayState
  | some orr =>
    let startIdx := config.openingRangeMinutes + config.avoidFirstMinutes
    ((candles.drop startIdx).take n).foldl (step config orr accountSize)
      initDayState

/-- The final day state of `runDay`: the candle-loop fold followed by the
end-of-day force close. -/
def runDayFinal (candles : List Candle) (config : Config)
    (accountSize : ℚ) : DayState :=
  match computeOpeningRange candles config with
  | none => initDayState
  | some orr =>
    let s := (candles.drop (config.openingRangeMinutes +
      config.avoidFirstMinutes)).foldl (step config orr accountSize)
      initDayState
    match lastElem? candles with
    | some lastCandle => endOfDayClose s lastCandle
    | none => s

/-- `runDay(candles, config, accountSize)` for an already-merged
configuration.  If the loop leaves an active trade and the candle list is
non-empty it is force-closed on the last candle; the `some`-range,
empty-candle combination only arises for `openingRangeMinutes = 0`, where
the JS code throws (see `computeOpeningRange`). -/
def runDay (candles : List Candle) (config : Config) (accountSize : ℚ) :
    RunDayResult :=
  match computeOpeningRange candles config with
  | none => { trades := [], openingRange := none, signals := [], summary := none }
  | some orr =>
    let startIdx := config.openingRangeMinutes + config.avoidFirstMinutes
    let s := (candles.drop startIdx).foldl (step config orr accountSize)
      initDayState
    let s' :=
      match lastElem? candles with
      | some lastCandle => endOfDayClose s lastCandle
      | none => s
    { trades := s'.trades
      openingRange := some orr
      signals := s'.signals
      summary := some
        { totalTrades := s'.trades.length
          winners := (s'.trades.filter (fun t => t.totalPnL > 0)).length
          losers := (s'.trades.filter (fun t => t.totalPnL ≤ 0)).length
          totalPnL := round2 ((s'.trades.map (·.totalPnL)).sum)
          rangeSize := orr.rangeSize
          rangePercent := round3 (orr.rangeSize / orr.openPrice * 100) } }

/-! ### Backtesting engine (`js/backtester.js`)

Only the fields of a backtest trade that `computeMetrics` and
`monteCarloSimulation` read are modelled (`netPnL`, `direction`,
`durationMinutes`), and only the fields of an equity point that the
drawdown scan reads (`day`, `equity`).  `Math.sqrt` is abstracted as a
parameter `sqrtf`. -/

/-- A realized trade as seen by the metrics engine. -/
structure BTrade where
  netPnL : ℚ
  direction : Direction
  durationMinutes : Option ℚ
  deriving Repr, DecidableEq

/-- An equity-curve point as seen by the metrics engine. -/
structure EquityPoint where
  day : ℤ
  equity : ℚ
  deriving Repr, DecidableEq

/-- The profit factor: `Infinity` or a finite rational (JS keeps
`Infinity` through `parseFloat(x.toFixed(2))`). -/
inductive ProfitFactor
  | inf
  | val (q : ℚ)
  deriving Repr, DecidableEq

/-- `avgDailyReturn`. -/
def avgDailyReturn (dailyReturns : List ℚ) : ℚ :=
  if dailyReturns.length > 0 then dailyReturns.sum / (dailyReturns.length : ℚ)
  else 0

/-- `stdDailyReturn` (sample standard deviation, `n − 1` in the
denominator). -/
def stdDailyReturn (sqrtf : ℚ → ℚ) (dailyReturns : List ℚ) : ℚ :=
  if dailyReturns.length > 1 then
    sqrtf ((dailyReturns.map
        (fun r => (r - avgDailyReturn dailyReturns)^2)).sum /
      ((dailyReturns.length : ℚ) - 1))
  else 0

/-- `downsideStd` (population-style: divides by the count). -/
def downsideStd (sqrtf : ℚ → ℚ) (dailyReturns : List ℚ) : ℚ :=
  let downsideReturns := dailyReturns.filter (fun r => r < 0)
  if downsideReturns.length > 1 then
    sqrtf ((downsideReturns.map (fun r => r^2)).sum /
      (downsideReturns.length : ℚ))
  else 0

/-- State of the drawdown scan over the equity curve. -/
structure DDScan where
  maxDD : ℚ
  maxDDPct : ℚ
  peak : ℚ
  longestDD : ℤ
  ddStartDay : ℤ
  deriving Repr, DecidableEq

/-- One step of the drawdown scan. -/
def ddStep (st : DDScan) (point : EquityPoint) : DDScan :=
  let st1 :=
    if point.equity ≥ st.peak then
      let ddLength := point.day - st.ddStartDay
      { st with
        peak := point.equity
        longestDD := if ddLength > st.longestDD then ddLength else st.longestDD
        ddStartDay := point.day }
    else st
  let dd := st1.peak - point.equity
  let ddPct := if st1.peak > 0 then dd / st1.peak * 100 else 0
  { st1 with
    maxDD := if dd > st1.maxDD then dd else st1.maxDD
    maxDDPct := if ddPct > st1.maxDDPct then ddPct else st1.maxDDPct }

/-- State of the consecutive win/loss scan. -/
structure StreakScan where
  maxConsecWins : ℕ
  maxConsecLosses : ℕ
  consecWins : ℕ
  consecLosses : ℕ
  deriving Repr, DecidableEq

/-- One step of the consecutive win/loss scan. -/
def streakStep (st : StreakScan) (t : BTrade) : StreakScan :=
  if t.netPnL > 0 then
    let w := st.consecWins + 1
    { st with
      consecWins := w
      consecLosses := 0
      maxConsecWins := if w > st.maxConsecWins then w else st.maxConsecWins }
  else
    let l := st.consecLosses + 1
    { st with
      consecLosses := l
      consecWins := 0
      maxConsecLosses := if l > st.maxConsecLosses then l else st.maxConsecLosses }

/-- The metrics record returned by `computeMetrics`. -/
structure Metrics where
  totalTrades : ℕ
  winners : ℕ
  losers : ℕ
  winRate : ℚ
  totalPnL : ℚ
  grossProfit : ℚ
  grossLoss : ℚ
  profitFactor : ProfitFactor
  expectancy : ℚ
  avgWin : ℚ
  avgLoss : ℚ
  largestWin : ℚ
  largestLoss : ℚ
  maxDrawdown : ℚ
  maxDrawdownPct : ℚ
  longestDrawdownDays : ℤ
  sharpeRatio : ℚ
  sortinoRatio : ℚ
  annualizedReturn : ℚ
  maxConsecWins : ℕ
  maxConsecLosses : ℕ
  avgDuration : ℚ
  longTrades : ℕ
  shortTrades : ℕ
  longWinRate : ℚ
  shortWinRate : ℚ
  avgWinLossRatio : ℚ
  finalEquity : ℚ
  totalReturn : ℚ

/-- `computeMetrics(trades, equityCurve, dailyReturns, startingCapital)`. -/
def computeMetrics (sqrtf : ℚ → ℚ) (trades : List BTrade)
    (equityCurve : List EquityPoint) (dailyReturns : List ℚ)
    (startingCapital : ℚ) : Metrics :=
  let winners := trades.filter (fun t => t.netPnL > 0)
  let losers := trades.filter (fun t => t.netPnL ≤ 0)
  let totalPnL := (trades.map (·.netPnL)).sum
  let grossProfit := (winners.map (·.netPnL)).sum
  let grossLoss := |(losers.map (·.netPnL)).sum|
  let dd := equityCurve.foldl ddStep ⟨0, 0, startingCapital, 0, 0⟩
  let avgDR := avgDailyReturn dailyReturns
  let stdDR := stdDailyReturn sqrtf dailyReturns
  let dStd := downsideStd sqrtf dailyReturns
  let annualizedReturn := avgDR * 252
  let annualizedStd := stdDR * sqrtf 252
  let sharpeRatio := if annualizedStd > 0 then annualizedReturn / annualizedStd else 0
  let sortinoRatio := if dStd > 0 then (avgDR * 252) / (dStd * sqrtf 252) else 0
  let avgWin := if winners.length > 0 then grossProfit / (winners.length : ℚ) else 0
  let avgLoss := if losers.length > 0 then grossLoss / (losers.length : ℚ) else 0
  let profitFactor : ProfitFactor :=
    if grossLoss > 0 then .val (round2 (grossProfit / grossLoss))
    else if grossProfit > 0 then .inf
    else .val 0
  let expectancy := if trades.length > 0 then totalPnL / (trades.length : ℚ) else 0
  let winRate :=
    if trades.length > 0 then (winners.length : ℚ) / (trades.length : ℚ) * 100
    else 0
  let streaks := trades.foldl streakStep ⟨0, 0, 0, 0⟩
  let durations := trades.filterMap (·.durationMinutes)
  let avgDuration :=
    if durations.length > 0 then durations.sum / (durations.length : ℚ) else 0
  let longTrades := trades.filter (fun t => t.direction = .long)
  let shortTrades := trades.filter (fun t => t.direction = .short)
  { totalTrades := trades.length
    winners := winners.length
    losers := losers.length
    winRate := roundTo 1 winRate
    totalPnL := round2 totalPnL
    grossProfit := round2 grossProfit
    grossLoss := round2 grossLoss
    profitFactor := profitFactor
    expectancy := round2 expectancy
    avgWin := round2 avgWin
    avgLoss := round2 avgLoss
    largestWin :=
      match winners.map (·.netPnL) with
      | [] => 0
      | p :: ps => round2 (ps.foldl max p)
    largestLoss :=
      match losers.map (·.netPnL) with
      | [] => 0
      | p :: ps => round2 (ps.foldl min p)
    maxDrawdown := round2 dd.maxDD
    maxDrawdownPct := round2 dd.maxDDPct
    longestDrawdownDays := dd.longestDD
    sharpeRatio := round2 sharpeRatio
    sortinoRatio := round2 sortinoRatio
    annualizedReturn := round2 annualizedReturn
    maxConsecWins := streaks.maxConsecWins
    maxConsecLosses := streaks.maxConsecLosses
    avgDuration := roundTo 0 avgDuration
    longTrades := longTrades.length
    shortTrades := shortTrades.length
    longWinRate :=
      if longTrades.length > 0 then
        roundTo 1 (((longTrades.filter (fun t => t.netPnL > 0)).length : ℚ) /
          (longTrades.length : ℚ) * 100)
      else 0
    shortWinRate :=
      if shortTrades.length > 0 then
        roundTo 1 (((shortTrades.filter (fun t => t.netPnL > 0)).length : ℚ) /
          (shortTrades.length : ℚ) * 100)
      else 0
    avgWinLossRatio := if avgLoss > 0 then round2 (avgWin / avgLoss) else 0
    finalEquity :=
      match lastElem? equityCurve with
      | some p => p.equity
      | none => 0
    totalReturn :=
      match lastElem? equityCurve with
      | some p => round2 ((p.equity - startingCapital) / startingCapital * 100)
      | none => 0 }

/-- One Monte Carlo outcome record. -/
structure MCOutcome where
  finalEquity : ℚ
  totalReturn : ℚ
  maxDrawdown : ℚ
  deriving Repr, DecidableEq

/-- The inner resampling loop of one simulation: `trades.length` draws with
replacement.  `Math.floor(rng() * trades.length)` is a valid index whenever
the drawn uniform is `< 1`; on the single state that yields exactly `1`
the JS read `trades[trades.length]` is `undefined` and poisons the
simulation with `NaN` — the model reads a zero-P&L default there. -/
def mcOneSim (trades : List BTrade) :
    ℕ → ℚ × ℚ × ℚ → RandStream → (ℚ × ℚ × ℚ) × RandStream
  | 0, acc, rng => (acc, rng)
  | k + 1, (equity, peak, maxDD), rng =>
    let u := rng.next
    let idx := (jsFloor (u.1 * (trades.length : ℚ))).toNat
    let tr := trades.getD idx ⟨0, .long, none⟩
    let equity' := equity + tr.netPnL
    let peak' := if equity' > peak then equity' else peak
    let dd := (peak' - equity') / peak' * 100
    let maxDD' := if dd > maxDD then dd else maxDD
    mcOneSim trades k (equity', peak', maxDD') u.2

/-- The outer simulation loop, producing the per-simulation outcome
records in order. -/
def mcSims (trades : List BTrade) (startingCapital : ℚ) :
    ℕ → RandStream → List MCOutcome × RandStream
  | 0, rng => ([], rng)
  | k + 1, rng =>
    let r := mcOneSim trades trades.length (startingCapital, startingCapital, 0) rng
    let eq := r.1.1
    let mdd := r.1.2.2
    let outcome : MCOutcome :=
      ⟨round2 eq, round2 ((eq - startingCapital) / startingCapital * 100),
        round2 mdd⟩
    let rest := mcSims trades startingCapital k r.2
    (outcome :: rest.1, rest.2)

/-- The percentile summary returned by `monteCarloSimulation`. -/
structure MCSummary where
  median : MCOutcome
  percentile5 : MCOutcome
  percentile25 : MCOutcome
  percentile75 : MCOutcome
  percentile95 : MCOutcome
  worstCase : MCOutcome
  bestCase : MCOutcome
  deriving Repr, DecidableEq

/-- `monteCarloSimulation(trades, startingCapital, numSimulations)`: fixed
internal seed 42; `null` on an empty trade list.  The JS in-place numeric
sort is modelled by a stable merge sort on `finalEquity`. -/
def monteCarloSimulation (trades : List BTrade) (startingCapital : ℚ)
    (numSimulations : ℕ) : Option MCSummary :=
  if trades.length = 0 then none
  else
    let rng := seededRandom 42
    let results := (mcSims trades startingCapital numSimulations rng).1
    let sorted := results.mergeSort (fun a b => a.finalEquity ≤ b.finalEquity)
    let at_ := fun (q : ℚ) =>
      sorted.getD (jsFloor ((numSimulations : ℚ) * q)).toNat ⟨0, 0, 0⟩
    some
      { median := at_ 0.5
        percentile5 := at_ 0.05
        percentile25 := at_ 0.25
        percentile75 := at_ 0.75
        percentile95 := at_ 0.95
        worstCase := sorted.getD 0 ⟨0, 0, 0⟩
        bestCase := sorted.getD (numSimulations - 1) ⟨0, 0, 0⟩ }

/-! ### Concrete fixtures for the specification scenarios -/

/-- Scenario A/B configuration: `confirmationType='close'`, fixed-shares
sizing, volume confirmation on, partial profits and trailing stop
disabled; all other fields at their defaults. -/
def scenarioConfig : Config :=
  { DEFAULT_CONFIG with
    positionSizing := .fixedShares
    usePartialProfits := false
    trailingStop := false }

/-- Scenario A/B candles: a 15-minute opening range with high 101.00 and
low 100.00, then a breakout candle closing at 101.50 on volume
2000 ≥ 1.5 × 1000, then a candle whose low 99.80 breaches the stop
99.90. -/
def scenarioCandles : List Candle :=
  [⟨0, 100.5, 101, 100, 100.5, 1000⟩,
   ⟨60000, 100.5, 100.8, 100.2, 100.5, 1000⟩,
   ⟨120000, 100.5, 100.8, 100.2, 100.5, 1000⟩,
   ⟨180000, 100.5, 100.8, 100.2, 100.5, 1000⟩,
   ⟨240000, 100.5, 100.8, 100.2, 100.5, 1000⟩,
   ⟨300000, 100.5, 100.8, 100.2, 100.5, 1000⟩,
   ⟨360000, 100.5, 100.8, 100.2, 100.5, 1000⟩,
   ⟨420000, 100.5, 100.8, 100.2, 100.5, 1000⟩,
   ⟨480000, 100.5, 100.8, 100.2, 100.5, 1000⟩,
   ⟨540000, 100.5, 100.8, 100.2, 100.5, 1000⟩,
   ⟨600000, 100.5, 100.8, 100.2, 100.5, 1000⟩,
   ⟨660000, 100.5, 100.8, 100.2, 100.5, 1000⟩,
   ⟨720000, 100.5, 100.8, 100.2, 100.5, 1000⟩,
   ⟨780000, 100.5, 100.8, 100.2, 100.5, 1000⟩,
   ⟨840000, 100.5, 100.8, 100.2, 100.5, 1000⟩,
   ⟨900000, 101, 101.6, 100.9, 101.5, 2000⟩,
   ⟨960000, 100.5, 100.6, 99.8, 100, 1000⟩]

/-- The single closed trade Scenario A/B must produce. -/
def scenarioClosedTrade : ClosedTrade where
  direction := .long
  entryPrice := 101.5
  entryTime := 900000
  stopLoss := 99.9
  currentStop := 99.9
  shares := 100
  remainingShares := 0
  partialExits := [⟨960000, 99.9, 100, -1, -160⟩]
  nextTargetIdx := 0
  mfe := 0
  mae := 0
  exitTime := 960000
  exitReason := .stopLoss
  totalPnL := -160
  durationMinutes := 1
  maxFavorableExcursion := some 0
  maxAdverseExcursion := some 0

/-- The active trade Scenario A opens on the breakout candle. -/
def scenarioActiveTrade : ActiveTrade where
  direction := .long
  entryPrice := 101.5
  entryTime := 900000
  stopLoss := 99.9
  currentStop := 99.9
  shares := 100
  remainingShares := 100
  partialExits := []
  nextTargetIdx := 0
  mfe := 0
  mae := 0

/-- A two-candle fixture whose volumes 1 and 2 have the non-integral mean
3/2. -/
def c8Candles : List Candle :=
  [⟨0, 9.5, 10, 9, 9.5, 1⟩, ⟨60000, 9.5, 10, 9, 9.5, 2⟩]

/-- A configuration with a 2-minute opening range. -/
def c8Config : Config := { DEFAULT_CONFIG with openingRangeMinutes := 2 }

/-- Junk opening range used as a default for `Option.getD`. -/
def orJunk : OpeningRange := ⟨0, 0, 0, 0, 0, 0, 0, 0⟩

/-- The all-zero `Math.sqrt` interpretation used to instantiate metric
theorems on concrete inputs. -/
def zeroSqrt : ℚ → ℚ := fun _ => 0

/-- A one-element trade list with a single winner. -/
def c9Trades : List BTrade := [⟨1, .long, none⟩]

/-- Scenario A candles with the final stop-out candle replaced by a quiet
candle that hits neither the stop nor a target, so the breakout trade
stays active across two consecutive loop steps. -/
def c6Candles : List Candle :=
  [⟨0, 100.5, 101, 100, 100.5, 1000⟩,
   ⟨60000, 100.5, 100.8, 100.2, 100.5, 1000⟩,
   ⟨120000, 100.5, 100.8, 100.2, 100.5, 1000⟩,
   ⟨180000, 100.5, 100.8, 100.2, 100.5, 1000⟩,
   ⟨240000, 100.5, 100.8, 100.2, 100.5, 1000⟩,
   ⟨300000, 100.5, 100.8, 100.2, 100.5, 1000⟩,
   ⟨360000, 100.5, 100.8, 100.2, 100.5, 1000⟩,
   ⟨420000, 100.5, 100.8, 100.2, 100.5, 1000⟩,
   ⟨480000, 100.5, 100.8, 100.2, 100.5, 1000⟩,
   ⟨540000, 100.5, 100.8, 100.2, 100.5, 1000⟩,
   ⟨600000, 100.5, 100.8, 100.2, 100.5, 1000⟩,
   ⟨660000, 100.5, 100.8, 100.2, 100.5, 1000⟩,
   ⟨720000, 100.5, 100.8, 100.2, 100.5, 1000⟩,
   ⟨780000, 100.5, 100.8, 100.2, 100.5, 1000⟩,
   ⟨840000, 100.5, 100.8, 100.2, 100.5, 1000⟩,
   ⟨900000, 101, 101.6, 100.9, 101.5, 2000⟩,
   ⟨960000, 101.4, 101.5, 101, 101.2, 1000⟩]

/-- The state of the scenario trade after the quiet candle: only the
adverse excursion changes. -/
def c6TradeAfter : ActiveTrade := { scenarioActiveTrade with mae := 0.5 }

/-! ## Theorems -/

/-! ### Numeric primitive lemmas -/

theorem roundTo_mono (k : ℕ) {x y : ℚ} (h : x ≤ y) : roundTo k x ≤ roundTo k y := by
  have hp : (0:ℚ) < (10:ℚ)^k := by positivity
  have hf : (⌊x * (10:ℚ)^k + 1/2⌋ : ℤ) ≤ ⌊y * (10:ℚ)^k + 1/2⌋ :=
    Int.floor_le_floor (by nlinarith)
  unfold roundTo
  gcongr

theorem round2_mono {x y : ℚ} (h : x ≤ y) : round2 x ≤ round2 y :=
  roundTo_mono 2 h

theorem round2_min (x y : ℚ) : round2 (min x y) = min (round2 x) (round2 y) := by
  rcases le_total x y with h | h
  · rw [min_eq_left h, min_eq_left (round2_mono h)]
  · rw [min_eq_right h, min_eq_right (round2_mono h)]

theorem round2_max (x y : ℚ) : round2 (max x y) = max (round2 x) (round2 y) := by
  rcases le_total x y with h | h
  · rw [max_eq_right h, max_eq_right (round2_mono h)]
  · rw [max_eq_left h, max_eq_left (round2_mono h)]

/-- A rational is a fixed point of `round2` exactly when it is an integer
multiple of `1/100`. -/
theorem round2_eq_self_iff_cent (x : ℚ) :
    round2 x = x ↔ ∃ z : ℤ, x = (z : ℚ) / 100 := by
  constructor
  · intro h
    exact ⟨⌊x * (10:ℚ)^2 + 1/2⌋, by
      rw [← h]; unfold round2 roundTo; norm_num⟩
  · rintro ⟨z, rfl⟩
    unfold round2 roundTo
    have h100 : ((z : ℚ) / 100) * (10:ℚ)^2 = (z : ℚ) := by ring_nf
    rw [h100]
    have hhalf : (⌊(1:ℚ)/2⌋ : ℤ) = 0 := by norm_num
    have hfl : ⌊(z : ℚ) + 1/2⌋ = z := by
      rw [show ((z:ℚ) + 1/2 : ℚ) = (1/2 : ℚ) + (z:ℚ) from by ring, Int.floor_add_int, hhalf,
        zero_add]
    rw [hfl]
    norm_num

theorem round2_sub_of_cent {x y : ℚ} (hx : round2 x = x) (hy : round2 y = y) :
    round2 (x - y) = x - y := by
  rw [round2_eq_self_iff_cent] at hx hy ⊢
  obtain ⟨a, rfl⟩ := hx
  obtain ⟨b, rfl⟩ := hy
  exact ⟨a - b, by push_cast; ring⟩

theorem round2_zero : round2 0 = 0 := by
  norm_num [round2, roundTo]

theorem jsRound_nonneg {x : ℚ} (h : 0 ≤ x) : 0 ≤ jsRound x := by
  unfold jsRound
  have : (0:ℤ) = ⌊(1:ℚ)/2⌋ := by norm_num
  rw [this]
  exact Int.floor_le_floor (by linarith)

theorem jsRound_intCast (z : ℤ) : jsRound (z : ℚ) = z := by
  unfold jsRound
  have hhalf : (⌊(1:ℚ)/2⌋ : ℤ) = 0 := by norm_num
  rw [show ((z:ℚ) + 1/2 : ℚ) = (1/2 : ℚ) + (z:ℚ) from by ring, Int.floor_add_int, hhalf,
    zero_add]

/-! ### PRNG lemmas -/

theorem lcgNext_lt (s : ℕ) : lcgNext s < 2^32 := Nat.mod_lt _ (by norm_num)

theorem lcgValue_nonneg (s : ℕ) : 0 ≤ lcgValue s := by
  unfold lcgValue
  positivity

theorem lcgValue_le_one {s : ℕ} (h : s < 2^32) : lcgValue s ≤ 1 := by
  unfold lcgValue
  rw [div_le_one (by norm_num)]
  have : (s : ℚ) ≤ ((2^32 - 1 : ℕ) : ℚ) := by
    exact_mod_cast Nat.le_of_lt_succ (by omega)
  calc (s : ℚ) ≤ ((2^32 - 1 : ℕ) : ℚ) := this
    _ = (2:ℚ)^32 - 1 := by norm_num

theorem afterCalls_state (seed : ℕ) :
    ∀ n, ((seededRandom seed).afterCalls n).state = lcgNext^[n] seed := by
  intro n
  induction n with
  | zero => rfl
  | succ k ih =>
    simp only [RandStream.afterCalls, RandStream.next, Function.iterate_succ_apply', ih]

/-! ### Claim C1 -/

/-- **C1.**  Determinism: the candle generator and the Monte Carlo
resampler are pure functions of their parameters in this embedding — each
invocation constructs its own fresh PRNG closure from the seed (the
resampler from its fixed internal seed 42) and threads its state
explicitly, so two independent runs with the same seed and parameters are
definitionally the same computation and produce bit-identical output; in
particular, the same trade list and starting capital fed twice into the
resampler yield identical percentile records. -/
theorem c1_determinism (ops : RealOps) (ticker : String) (dayStart : ℤ)
    (seed : ℕ) (prevClose : Option ℚ) (trades : List BTrade)
    (startingCapital : ℚ) (numSimulations : ℕ) :
    generateIntradayData ops ticker dayStart seed prevClose =
      generateIntradayData ops ticker dayStart seed prevClose ∧
    monteCarloSimulation trades startingCapital numSimulations =
      monteCarloSimulation trades startingCapital numSimulations :=
  ⟨rfl, rfl⟩

/-! ### Claim C2 -/

/-- **C2, counterexample.**  The claim asserts that every value produced by
`seededRandom` lies in `[0,1)`.  For seed `653637408` the first state update
lands exactly on `2^32 − 1`, so the first call returns
`(2^32 − 1)/(2^32 − 1) = 1`, which is not `< 1`. -/
theorem c2_counterexample :
    seededRandomCall 653637408 0 = 1 ∧ ¬ seededRandomCall 653637408 0 < 1 := by
  have h0 : seededRandomCall 653637408 0 = lcgValue (lcgNext 653637408) := rfl
  have h1 : lcgNext 653637408 = 4294967295 := by norm_num [lcgNext]
  have hv : seededRandomCall 653637408 0 = 1 := by
    rw [h0, h1]
    norm_num [lcgValue]
  exact ⟨hv, by rw [hv]; exact lt_irrefl 1⟩

/-- **C2, amended.**  `seededRandom(seed)` returns a callable whose `n`-th
call (0-indexed) updates the state by
`state = (state*1664525 + 1013904223) mod 2^32` — i.e. the state after that
call is the `(n+1)`-fold iterate of this map on the seed — and returns
`state / (2^32 − 1)`.  The returned value lies in the closed interval
`[0,1]` (it equals `1` exactly when the state lands on `2^32 − 1`, so the
half-open interval `[0,1)` of the original claim is not sound). -/
theorem c2_seededRandom_recurrence_and_range (seed n : ℕ) :
    seededRandomCall seed n = (specLcgState seed n : ℚ) / (2^32 - 1) ∧
    0 ≤ seededRandomCall seed n ∧ seededRandomCall seed n ≤ 1 := by
  have hstate : seededRandomCall seed n = lcgValue (lcgNext^[n + 1] seed) := by
    unfold seededRandomCall RandStream.next
    simp only [afterCalls_state, Function.iterate_succ_apply']
  refine ⟨?_, ?_, ?_⟩
  · rw [hstate]; rfl
  · rw [hstate]; exact lcgValue_nonneg _
  · rw [hstate]
    apply lcgValue_le_one
    rw [Function.iterate_succ_apply']
    exact lcgNext_lt _

/-! ### Candle generator lemmas -/

theorem next_fst_nonneg (r : RandStream) : 0 ≤ (r.next).1 := by
  simp only [RandStream.next]
  exact lcgValue_nonneg _

theorem volumeProfile_nonneg (ops : RealOps) (m t : ℕ)
    (hexp : ∀ x, 0 ≤ ops.exp x) : 0 ≤ volumeProfile ops m t := by
  unfold volumeProfile
  have h1 := hexp (-8 * ((m : ℚ) / (t : ℚ)))
  have h2 := hexp (-8 * (1 - (m : ℚ) / (t : ℚ)))
  have : (0:ℚ) ≤ 0.4 := by norm_num
  nlinarith

theorem spikeVol_fst_nonneg (baseVol : ℚ) (i : ℕ) (orHigh orLow : Option ℚ)
    (high low : ℚ) (rng : RandStream) (hbv : 0 ≤ baseVol) :
    0 ≤ (spikeVol baseVol i orHigh orLow high low rng).1 := by
  unfold spikeVol
  rcases orHigh with _ | orH <;> rcases orLow with _ | orL <;>
    simp only
  any_goals exact hbv
  split
  · have := next_fst_nonneg rng
    have hfac : (0:ℚ) ≤ 1.8 + (rng.next).1 * 1.2 := by nlinarith
    exact mul_nonneg hbv hfac
  · exact hbv

theorem half_next_nonneg (r : RandStream) : 0 ≤ 0.5 + (r.next).1 := by
  have := next_fst_nonneg r
  nlinarith

theorem round2_min3_le (a b c : ℚ) :
    round2 (min a (min b c)) ≤ min (round2 a) (round2 b) := by
  rw [← round2_min]
  exact round2_mono (min_le_min (le_refl a) (min_le_left b c))

theorem max3_le_round2 (a b c : ℚ) :
    max (round2 a) (round2 b) ≤ round2 (max a (max b c)) := by
  rw [← round2_max]
  exact round2_mono (max_le_max (le_refl a) (le_max_left b c))

theorem genMinute_valid (ops : RealOps) (profile : StockProfile)
    (dayStart : ℤ) (totalMinutes : ℕ) (openPrice trendBias : ℚ) (i : ℕ)
    (st : GenState) (hexp : ∀ x, 0 ≤ ops.exp x)
    (havg : 0 ≤ profile.avgVolume) :
    candleValid
      (genMinute ops profile dayStart totalMinutes openPrice trendBias i st).1 := by
  simp only [genMinute, candleValid]
  refine ⟨round2_min3_le _ _ _, max3_le_round2 _ _ _, ?_⟩
  apply jsRound_nonneg
  apply mul_nonneg
  · apply spikeVol_fst_nonneg
    exact mul_nonneg (div_nonneg havg (by positivity))
      (volumeProfile_nonneg _ _ _ hexp)
  · exact half_next_nonneg _

theorem genCandles_valid (ops : RealOps) (profile : StockProfile)
    (dayStart : ℤ) (totalMinutes : ℕ) (openPrice trendBias : ℚ)
    (hexp : ∀ x, 0 ≤ ops.exp x) (havg : 0 ≤ profile.avgVolume) :
    ∀ (rem i : ℕ) (st : GenState),
      ∀ cd ∈ (genCandles ops profile dayStart totalMinutes openPrice trendBias
        rem i st).1, candleValid cd := by
  intro rem
  induction rem with
  | zero =>
    intro i st cd hcd
    simp [genCandles] at hcd
  | succ k ih =>
    intro i st cd hcd
    simp only [genCandles] at hcd
    rcases List.mem_cons.mp hcd with rfl | h
    · exact genMinute_valid ops profile dayStart totalMinutes openPrice
        trendBias i st hexp havg
    · exact ih _ _ _ h

theorem lookup_avgVolume_nonneg (ticker : String) (p : StockProfile)
    (h : STOCK_PROFILES.lookup ticker = some p) : 0 ≤ p.avgVolume := by
  simp only [STOCK_PROFILES, List.lookup] at h
  repeat' split at h
  all_goals simp_all
  all_goals subst h
  all_goals norm_num

/-! ### Claim C7 -/

/-- **C7.**  Every candle emitted by `generateIntradayData` for a known
ticker satisfies `low ≤ min(open, close)`, `max(open, close) ≤ high` and
`volume ≥ 0` (an integer by construction of `Math.round`), after the
2-decimal rounding of the OHLC fields; this holds for every interpretation
of the transcendental functions with `Math.exp ≥ 0`. -/
theorem c7_generated_candle_validity (ops : RealOps) (ticker : String)
    (dayStart : ℤ) (seed : ℕ) (prevClose : Option ℚ)
    (hexp : ∀ x, 0 ≤ ops.exp x) :
    ∀ c ∈ generatedCandles ops ticker dayStart seed prevClose,
      c.low ≤ min c.opn c.close ∧ max c.opn c.close ≤ c.high ∧ 0 ≤ c.volume := by
  intro c hc
  unfold generatedCandles generateIntradayData at hc
  cases hlk : STOCK_PROFILES.lookup ticker with
  | none => rw [hlk] at hc; simp at hc
  | some profile =>
    rw [hlk] at hc
    simp only at hc
    have := genCandles_valid ops profile dayStart 390 _ _ hexp
      (lookup_avgVolume_nonneg ticker profile hlk) 390 0 _ c hc
    exact this

/-- **C7, witness.**  The hypothesis is satisfiable: the degenerate
interpretation has `exp = 1 ≥ 0`, and the theorem applies to the "AAPL"
profile with seed 1 and previous close 100. -/
theorem c7_witness :
    (∀ x : ℚ, 0 ≤ degenOps.exp x) ∧
    ∀ c ∈ generatedCandles degenOps "AAPL" 0 1 (some 100),
      c.low ≤ min c.opn c.close ∧ max c.opn c.close ≤ c.high ∧ 0 ≤ c.volume :=
  ⟨fun x => by norm_num [degenOps],
   c7_generated_candle_validity degenOps "AAPL" 0 1 (some 100)
     (fun x => by norm_num [degenOps])⟩

/-! ### Opening-range fold lemmas -/

theorem foldl_high_le (l : List Candle) :
    ∀ a : ℚ, a ≤ l.foldl (fun h c => if c.high > h then c.high else h) a ∧
      ∀ c ∈ l, c.high ≤ l.foldl (fun h c => if c.high > h then c.high else h) a := by
  induction l with
  | nil => intro a; exact ⟨le_refl a, by intro c hc; cases hc⟩
  | cons c0 rest ih =>
    intro a
    simp only [List.foldl_cons]
    rcases ih (if c0.high > a then c0.high else a) with ⟨h1, h2⟩
    constructor
    · refine le_trans ?_ h1
      split <;> [linarith [lt_of_lt_of_le (by assumption : a < c0.high) (le_refl c0.high)]; exact le_refl a]
    · intro c hc
      rcases List.mem_cons.mp hc with rfl | hmem
      · refine le_trans ?_ h1
        split
        · exact le_refl _
        · linarith [not_lt.mp (by assumption : ¬ c.high > a)]
      · exact h2 c hmem

theorem foldl_high_mem (l : List Candle) :
    ∀ a : ℚ, l.foldl (fun h c => if c.high > h then c.high else h) a = a ∨
      l.foldl (fun h c => if c.high > h then c.high else h) a ∈ l.map (·.high) := by
  induction l with
  | nil => intro a; exact Or.inl rfl
  | cons c0 rest ih =>
    intro a
    simp only [List.foldl_cons, List.map_cons, List.mem_cons]
    rcases ih (if c0.high > a then c0.high else a) with h | h
    · rw [h]
      split
      · exact Or.inr (Or.inl rfl)
      · exact Or.inl rfl
    · exact Or.inr (Or.inr h)

theorem foldl_low_le (l : List Candle) :
    ∀ a : ℚ, l.foldl (fun b c => if c.low < b then c.low else b) a ≤ a ∧
      ∀ c ∈ l, l.foldl (fun b c => if c.low < b then c.low else b) a ≤ c.low := by
  induction l with
  | nil => intro a; exact ⟨le_refl a, by intro c hc; cases hc⟩
  | cons c0 rest ih =>
    intro a
    simp only [List.foldl_cons]
    rcases ih (if c0.low < a then c0.low else a) with ⟨h1, h2⟩
    constructor
    · refine le_trans h1 ?_
      split <;> [linarith [(by assumption : c0.low < a)]; exact le_refl a]
    · intro c hc
      rcases List.mem_cons.mp hc with rfl | hmem
      · refine le_trans h1 ?_
        split
        · exact le_refl _
        · linarith [not_lt.mp (by assumption : ¬ c.low < a)]
      · exact h2 c hmem

theorem foldl_low_mem (l : List Candle) :
    ∀ a : ℚ, l.foldl (fun b c => if c.low < b then c.low else b) a = a ∨
      l.foldl (fun b c => if c.low < b then c.low else b) a ∈ l.map (·.low) := by
  induction l with
  | nil => intro a; exact Or.inl rfl
  | cons c0 rest ih =>
    intro a
    simp only [List.foldl_cons, List.map_cons, List.mem_cons]
    rcases ih (if c0.low < a then c0.low else a) with h | h
    · rw [h]
      split
      · exact Or.inr (Or.inl rfl)
      · exact Or.inl rfl
    · exact Or.inr (Or.inr h)

theorem cast_sum_volumes (l : List Candle) :
    (((l.map (·.volume)).sum : ℤ) : ℚ) = (l.map (fun c => (c.volume : ℚ))).sum := by
  induction l with
  | nil => simp
  | cons c r ih => simp [ih]

/-! ### Claim C8 -/

/-- **C8, counterexample.**  The claim asserts `avgVolume` is the mean of
the `K` volumes.  With a 2-minute range and volumes 1 and 2 the code
returns `Math.round(3/2) = 2 ≠ 3/2`, because `computeOpeningRange` rounds
the mean to the nearest integer. -/
theorem c8_counterexample :
    (computeOpeningRange c8Candles c8Config).isSome = true ∧
    ((computeOpeningRange c8Candles c8Config).getD orJunk).avgVolume = 2 ∧
    ¬ ((computeOpeningRange c8Candles c8Config).getD orJunk).avgVolume =
      (1 + 2 : ℚ) / 2 := by
  norm_num [computeOpeningRange, c8Candles, c8Config, DEFAULT_CONFIG, orJunk,
    jsRound, round2, round3, roundTo, lastOfCons, List.take, List.foldl]

/-- **C8, amended.**  For `openingRangeMinutes = K ≥ 1`,
`computeOpeningRange` returns `null` whenever fewer than `K` candles are
supplied; otherwise (when the first `K` candles each satisfy `low ≤ high`
and their prices are exact multiples of a cent, as all generated candles
are) it returns an opening range whose `high`/`low` are the maximum high
and minimum low of those `K` candles, with `high ≥ low`,
`rangeSize = high − low` exactly, and `avgVolume` the mean of the `K`
volumes **rounded to the nearest integer** (`Math.round`), not the exact
mean. -/
theorem c8_openingRange_amended (candles : List Candle) (config : Config)
    (hK : 1 ≤ config.openingRangeMinutes)
    (hval : ∀ c ∈ candles.take config.openingRangeMinutes, c.low ≤ c.high)
    (hcent : ∀ c ∈ candles.take config.openingRangeMinutes,
      round2 c.high = c.high ∧ round2 c.low = c.low) :
    (candles.length < config.openingRangeMinutes →
      computeOpeningRange candles config = none) ∧
    (config.openingRangeMinutes ≤ candles.length →
      ∃ r, computeOpeningRange candles config = some r ∧
        r.high ∈ (candles.take config.openingRangeMinutes).map (·.high) ∧
        (∀ c ∈ candles.take config.openingRangeMinutes, c.high ≤ r.high) ∧
        r.low ∈ (candles.take config.openingRangeMinutes).map (·.low) ∧
        (∀ c ∈ candles.take config.openingRangeMinutes, r.low ≤ c.low) ∧
        r.low ≤ r.high ∧
        r.rangeSize = r.high - r.low ∧
        r.avgVolume = (jsRound
          ((((candles.take config.openingRangeMinutes).map (·.volume)).sum : ℚ) /
            (config.openingRangeMinutes : ℚ)) : ℚ)) := by
  constructor
  · intro hlt
    unfold computeOpeningRange
    rw [if_pos]
    rw [List.length_take]
    omega
  · intro hle
    have hlen : (candles.take config.openingRangeMinutes).length =
        config.openingRangeMinutes := by
      rw [List.length_take]; omega
    obtain ⟨c0, rest, hor⟩ : ∃ c0 rest,
        candles.take config.openingRangeMinutes = c0 :: rest := by
      cases h : candles.take config.openingRangeMinutes with
      | nil => rw [h] at hlen; simp at hlen; omega
      | cons c0 rest => exact ⟨c0, rest, rfl⟩
    unfold computeOpeningRange
    rw [hor, if_neg (by rw [← hor, hlen]; omega)]
    set FH := rest.foldl (fun h c => if c.high > h then c.high else h) c0.high with hFH
    set FL := rest.foldl (fun b c => if c.low < b then c.low else b) c0.low with hFL
    have hFHmem : FH ∈ (c0 :: rest).map (·.high) := by
      rcases foldl_high_mem rest c0.high with h | h
      · rw [hFH, h]; exact List.mem_cons_self _ _
      · exact List.mem_cons_of_mem _ h
    have hFLmem : FL ∈ (c0 :: rest).map (·.low) := by
      rcases foldl_low_mem rest c0.low with h | h
      · rw [hFL, h]; exact List.mem_cons_self _ _
      · exact List.mem_cons_of_mem _ h
    have hFHub : ∀ c ∈ (c0 :: rest), c.high ≤ FH := by
      intro c hc
      rcases List.mem_cons.mp hc with rfl | hmem
      · exact (foldl_high_le rest c.high).1
      · exact (foldl_high_le rest c0.high).2 c hmem
    have hFLlb : ∀ c ∈ (c0 :: rest), FL ≤ c.low := by
      intro c hc
      rcases List.mem_cons.mp hc with rfl | hmem
      · exact (foldl_low_le rest c.low).1
      · exact (foldl_low_le rest c0.low).2 c hmem
    have hcentFH : round2 FH = FH := by
      rcases List.mem_map.mp hFHmem with ⟨c, hc, hceq⟩
      rw [← hceq]
      exact (hcent c (hor ▸ hc)).1
    have hcentFL : round2 FL = FL := by
      rcases List.mem_map.mp hFLmem with ⟨c, hc, hceq⟩
      rw [← hceq]
      exact (hcent c (hor ▸ hc)).2
    have hFLFH : FL ≤ FH :=
      le_trans (hFLlb c0 (List.mem_cons_self _ _))
        (le_trans (hval c0 (by rw [hor]; exact List.mem_cons_self _ _))
          (hFHub c0 (List.mem_cons_self _ _)))
    refine ⟨_, rfl, ?_, ?_, ?_, ?_, ?_, ?_, ?_⟩
    · simpa only [hcentFH, hor] using hFHmem
    · intro c hc
      simp only [hcentFH]
      exact hFHub c (hor ▸ hc)
    · simpa only [hcentFL, hor] using hFLmem
    · intro c hc
      simp only [hcentFL]
      exact hFLlb c (hor ▸ hc)
    · simp only [hcentFH, hcentFL]
      exact hFLFH
    · simp only [hcentFH, hcentFL]
      exact round2_sub_of_cent hcentFH hcentFL
    · rw [← hor, hlen]
      simp only
      rw [cast_sum_volumes]

/-- **C8, witness.**  The amended theorem applies to the Scenario A
candles under the default configuration (`K = 15`). -/
theorem c8_witness :
    (1 ≤ DEFAULT_CONFIG.openingRangeMinutes) ∧
    (computeOpeningRange scenarioCandles DEFAULT_CONFIG).isSome = true := by
  have hval : ∀ c ∈ scenarioCandles.take DEFAULT_CONFIG.openingRangeMinutes,
      c.low ≤ c.high := by
    norm_num [scenarioCandles, DEFAULT_CONFIG, List.take, List.forall_mem_cons]
  have hcent : ∀ c ∈ scenarioCandles.take DEFAULT_CONFIG.openingRangeMinutes,
      round2 c.high = c.high ∧ round2 c.low = c.low := by
    norm_num [scenarioCandles, DEFAULT_CONFIG, List.take, List.forall_mem_cons,
      round2, roundTo]
  have h := (c8_openingRange_amended scenarioCandles DEFAULT_CONFIG
    (by norm_num [DEFAULT_CONFIG]) hval hcent).2
    (by norm_num [scenarioCandles, DEFAULT_CONFIG])
  obtain ⟨r, hr, -⟩ := h
  exact ⟨by norm_num [DEFAULT_CONFIG], by rw [hr]; rfl⟩

/-! ### Strategy state-machine lemmas -/

theorem round2_idem (x : ℚ) : round2 (round2 x) = round2 x := by
  rw [round2_eq_self_iff_cent]
  exact ⟨⌊x * (10:ℚ)^2 + 1/2⌋, by unfold round2 roundTo; norm_num⟩

theorem exitCheck_reason (config : Config) (t : ActiveTrade) (candle : Candle)
    (p : ℚ) (r : ExitReason) (h : exitCheck config t candle = some (p, r)) :
    r = .stopLoss ∨ r = .maxTime := by
  unfold exitCheck at h
  repeat' split at h
  all_goals simp at h
  all_goals repeat' split at h
  all_goals simp_all

theorem applyTrailing_spec (config : Config) (orr : OpeningRange)
    (candle : Candle) (t : ActiveTrade) :
    (applyTrailing config orr candle t).direction = t.direction ∧
    (applyTrailing config orr candle t).entryPrice = t.entryPrice ∧
    (applyTrailing config orr candle t).entryTime = t.entryTime ∧
    (applyTrailing config orr candle t).shares = t.shares ∧
    (applyTrailing config orr candle t).remainingShares = t.remainingShares ∧
    (applyTrailing config orr candle t).partialExits = t.partialExits ∧
    (applyTrailing config orr candle t).nextTargetIdx = t.nextTargetIdx ∧
    ((applyTrailing config orr candle t).currentStop = t.currentStop ∨
      ∃ ns, (applyTrailing config orr candle t).currentStop = round2 ns ∧
        ((t.direction = .long ∧ t.currentStop < ns) ∨
         (t.direction = .short ∧ ns < t.currentStop))) := by
  simp only [applyTrailing]
  repeat' split
  all_goals refine ⟨rfl, rfl, rfl, rfl, rfl, rfl, rfl, ?_⟩
  all_goals first
    | exact Or.inl rfl
    | (rename_i hadopt; exact Or.inr ⟨_, rfl, Or.inl ⟨hadopt.1, hadopt.2⟩⟩)
    | (rename_i hadopt; exact Or.inr ⟨_, rfl, Or.inr ⟨hadopt.1, hadopt.2⟩⟩)

theorem trackExcursion_spec (t : ActiveTrade) (candle : Candle) :
    (trackExcursion t candle).direction = t.direction ∧
    (trackExcursion t candle).entryPrice = t.entryPrice ∧
    (trackExcursion t candle).entryTime = t.entryTime ∧
    (trackExcursion t candle).shares = t.shares ∧
    (trackExcursion t candle).remainingShares = t.remainingShares ∧
    (trackExcursion t candle).partialExits = t.partialExits ∧
    (trackExcursion t candle).nextTargetIdx = t.nextTargetIdx ∧
    (trackExcursion t candle).currentStop = t.currentStop := by
  unfold trackExcursion
  split <;> exact ⟨rfl, rfl, rfl, rfl, rfl, rfl, rfl, rfl⟩

theorem partialSharesSum_append (l : List PartialExit) (pe : PartialExit) :
    partialSharesSum (l ++ [pe]) = partialSharesSum l + pe.shares := by
  simp [partialSharesSum]

theorem sharesToClose_le (rem : ℤ) (percs : List ℚ) (hrem : 0 ≤ rem)
    (hp : ∀ p ∈ percs, 0 ≤ p) :
    sharesToCloseOf percs rem ≤ rem := by
  unfold sharesToCloseOf
  have hpct : 0 ≤ percs.headD 0 := by
    cases percs with
    | nil => norm_num
    | cons p r => exact hp p (List.mem_cons_self _ _)
  have hsum0 : 0 ≤ percs.sum := List.sum_nonneg hp
  have hple : percs.headD 0 ≤ percs.sum := by
    cases percs with
    | nil => norm_num
    | cons p r =>
      simp only [List.headD_cons, List.sum_cons]
      have : 0 ≤ r.sum :=
        List.sum_nonneg (fun x hx => hp x (List.mem_cons_of_mem _ hx))
      linarith
  rcases eq_or_ne percs.sum 0 with hz | hz
  · rw [if_pos hz]
    have h0 : percs.headD 0 = 0 := le_antisymm (hz ▸ hple) hpct
    rw [h0]
    unfold jsFloor
    simpa using hrem
  · rw [if_neg hz]
    have hspos : 0 < percs.sum := lt_of_le_of_ne hsum0 (Ne.symm hz)
    have hle : (rem : ℚ) * percs.headD 0 / percs.sum ≤ (rem : ℚ) := by
      rw [div_le_iff hspos]
      have hmul : (rem : ℚ) * percs.headD 0 ≤ (rem : ℚ) * percs.sum :=
        mul_le_mul_of_nonneg_left hple (by exact_mod_cast hrem)
      linarith
    unfold jsFloor
    calc ⌊(rem : ℚ) * percs.headD 0 / percs.sum⌋ ≤ ⌊(rem : ℚ)⌋ :=
          Int.floor_le_floor hle
      _ = rem := Int.floor_intCast rem

theorem execPartial_spec (config : Config) (candle : Candle)
    (targetPrice : ℚ) (tIdx : ℕ) (stc : ℤ) (t : ActiveTrade) :
    (execPartial config candle targetPrice tIdx stc t).direction = t.direction ∧
    (execPartial config candle targetPrice tIdx stc t).entryPrice = t.entryPrice ∧
    (execPartial config candle targetPrice tIdx stc t).entryTime = t.entryTime ∧
    (execPartial config candle targetPrice tIdx stc t).shares = t.shares ∧
    ((execPartial config candle targetPrice tIdx stc t).currentStop =
        t.currentStop ∨
      (execPartial config candle targetPrice tIdx stc t).currentStop =
        t.entryPrice) ∧
    partialSharesSum (execPartial config candle targetPrice tIdx stc
        t).partialExits = partialSharesSum t.partialExits + stc ∧
    (execPartial config candle targetPrice tIdx stc t).remainingShares =
      t.remainingShares - stc := by
  refine ⟨rfl, rfl, rfl, rfl, ?_, ?_, rfl⟩
  · by_cases hbe : tIdx = 0 ∧ config.breakEvenAfterTarget1
    · exact Or.inr (if_pos hbe)
    · exact Or.inl (if_neg hbe)
  · exact partialSharesSum_append _ _

theorem applyPartialsGo_spec (config : Config) (rangeSize : ℚ) (candle : Candle) :
    ∀ (targets percs : List ℚ) (tIdx : ℕ) (t : ActiveTrade) (sigs : List Signal),
      (applyPartialsGo config rangeSize candle targets percs tIdx t
        sigs).1.direction = t.direction ∧
      (applyPartialsGo config rangeSize candle targets percs tIdx t
        sigs).1.entryPrice = t.entryPrice ∧
      (applyPartialsGo config rangeSize candle targets percs tIdx t
        sigs).1.entryTime = t.entryTime ∧
      (applyPartialsGo config rangeSize candle targets percs tIdx t
        sigs).1.shares = t.shares ∧
      ((applyPartialsGo config rangeSize candle targets percs tIdx t
          sigs).1.currentStop = t.currentStop ∨
        (applyPartialsGo config rangeSize candle targets percs tIdx t
          sigs).1.currentStop = t.entryPrice) ∧
      ((∀ p ∈ percs, 0 ≤ p) → 0 ≤ t.remainingShares →
        partialSharesSum (applyPartialsGo config rangeSize candle targets percs
            tIdx t sigs).1.partialExits +
          (applyPartialsGo config rangeSize candle targets percs tIdx t
            sigs).1.remainingShares =
          partialSharesSum t.partialExits + t.remainingShares ∧
        0 ≤ (applyPartialsGo config rangeSize candle targets percs tIdx t
          sigs).1.remainingShares) := by
  intro targets
  induction targets with
  | nil =>
    intro percs tIdx t sigs
    exact ⟨rfl, rfl, rfl, rfl, Or.inl rfl, fun _ h => ⟨rfl, h⟩⟩
  | cons tm rest ih =>
    intro percs tIdx t sigs
    simp only [applyPartialsGo]
    repeat' split
    all_goals first
    | contradiction
    | exact ⟨(ih _ _ _ _).1, (ih _ _ _ _).2.1, (ih _ _ _ _).2.2.1,
        (ih _ _ _ _).2.2.2.1, (ih _ _ _ _).2.2.2.2.1,
        fun hp hrem => (ih _ _ _ _).2.2.2.2.2
          (fun p hp2 => hp p (List.mem_of_mem_tail hp2)) hrem⟩
    | -- the executed branch: recursion on `execPartial … t`
      (refine ⟨(ih _ _ _ _).1.trans (execPartial_spec _ _ _ _ _ _).1,
        (ih _ _ _ _).2.1.trans (execPartial_spec _ _ _ _ _ _).2.1,
        (ih _ _ _ _).2.2.1.trans (execPartial_spec _ _ _ _ _ _).2.2.1,
        (ih _ _ _ _).2.2.2.1.trans (execPartial_spec _ _ _ _ _ _).2.2.2.1,
        ?_, ?_⟩
       · rcases (ih _ _ _ _).2.2.2.2.1 with h | h
         · rcases (execPartial_spec _ _ _ _ _ _).2.2.2.2.1 with h2 | h2
           · exact Or.inl (h.trans h2)
           · exact Or.inr (h.trans h2)
         · exact Or.inr (h.trans (execPartial_spec _ _ _ _ _ _).2.1)
       · intro hp hrem
         have hle := sharesToClose_le t.remainingShares percs hrem hp
         have hp' : ∀ p ∈ percs.tail, 0 ≤ p :=
           fun p hp2 => hp p (List.mem_of_mem_tail hp2)
         refine ⟨?_, ((ih _ _ _ _).2.2.2.2.2 hp'
           (by simp only [execPartial]; omega)).2⟩
         rw [((ih _ _ _ _).2.2.2.2.2 hp'
           (by simp only [execPartial]; omega)).1,
           (execPartial_spec _ _ _ _ _ _).2.2.2.2.2.1,
           (execPartial_spec _ _ _ _ _ _).2.2.2.2.2.2]
         omega)

theorem exitSignalCount_append (a b : List Signal) :
    exitSignalCount (a ++ b) = exitSignalCount a + exitSignalCount b := by
  simp [exitSignalCount, List.filter_append]

theorem exitReason_getD_ne_eod (config : Config) (t : ActiveTrade)
    (candle : Candle) :
    (((exitCheck config t candle).map Prod.snd).getD .targetsHit) ≠
      .endOfDay := by
  cases h : exitCheck config t candle with
  | none => simp
  | some pr =>
    rcases exitCheck_reason config t candle pr.1 pr.2 (by rw [h]) with hr | hr <;>
      simp [hr]

theorem shift_signal_prefix (sigs res : List Signal) (x : Signal)
    (h : ∃ ns, res = (sigs ++ [x]) ++ ns ∧
      ∀ sig ∈ ns, sig.reasonOf = none ∧ sig.isExit = false)
    (hx : x.reasonOf = none ∧ x.isExit = false) :
    ∃ ns, res = sigs ++ ns ∧
      ∀ sig ∈ ns, sig.reasonOf = none ∧ sig.isExit = false := by
  obtain ⟨ns, hns, hp⟩ := h
  refine ⟨x :: ns, ?_, ?_⟩
  · rw [hns, List.append_assoc]
    rfl
  · intro sig hsig
    rcases List.mem_cons.mp hsig with rfl | hm
    · exact hx
    · exact hp sig hm

theorem applyPartialsGo_signals (config : Config) (rangeSize : ℚ)
    (candle : Candle) :
    ∀ (targets percs : List ℚ) (tIdx : ℕ) (t : ActiveTrade)
      (sigs : List Signal),
      ∃ ns, (applyPartialsGo config rangeSize candle targets percs tIdx t
          sigs).2 = sigs ++ ns ∧
        ∀ sig ∈ ns, sig.reasonOf = none ∧ sig.isExit = false := by
  intro targets
  induction targets with
  | nil =>
    intro percs tIdx t sigs
    exact ⟨[], by simp [applyPartialsGo], by simp⟩
  | cons tm rest ih =>
    intro percs tIdx t sigs
    simp only [applyPartialsGo]
    repeat' split
    all_goals first
    | contradiction
    | exact ih _ _ _ _
    | -- executed branch: the recursion starts from `sigs ++ [partialExit …]`
      exact shift_signal_prefix _ _ _ (ih _ _ _ _) ⟨rfl, rfl⟩

theorem tryEntry_spec (config : Config) (orr : OpeningRange)
    (accountSize : ℚ) (s : DayState) (candle : Candle) :
    tryEntry config orr accountSize s candle = s ∨
    ∃ a entrySig,
      tryEntry config orr accountSize s candle =
        { trades := s.trades, signals := s.signals ++ [entrySig],
          active := some a, tradesCount := s.tradesCount + 1 } ∧
      entrySig.reasonOf = none ∧ entrySig.isExit = false ∧
      a.partialExits = [] ∧ a.remainingShares = a.shares ∧ 0 < a.shares ∧
      round2 a.currentStop = a.currentStop ∧
      round2 a.entryPrice = a.entryPrice ∧
      (orr.low ≤ orr.high → 0 ≤ config.stopLossBuffer →
        (a.direction = .long → a.currentStop ≤ a.entryPrice) ∧
        (a.direction = .short → a.entryPrice ≤ a.currentStop)) := by
  cases hconf : config.confirmationType with
  | close =>
    simp only [tryEntry, hconf]
    by_cases hmax : s.tradesCount ≥ config.maxTradesPerDay
    · rw [if_pos hmax]
      exact Or.inl rfl
    · rw [if_neg hmax]
      split
      · next hlb =>
        split
        · next hsh =>
          refine Or.inr ⟨_, _, rfl, rfl, rfl, rfl, rfl, hsh, round2_idem _,
            round2_idem _, fun hlh hbuf => ⟨fun _ => ?_,
              fun hdir => by simp at hdir⟩⟩
          apply round2_mono
          have hlb2 : decide (candle.close > orr.high) = true := by
            rw [Bool.and_eq_true] at hlb
            exact hlb.1
          have hgt := of_decide_eq_true hlb2
          linarith
        · exact Or.inl rfl
      · split
        · next hsb =>
          split
          · next hsh =>
            refine Or.inr ⟨_, _, rfl, rfl, rfl, rfl, rfl, hsh, round2_idem _,
              round2_idem _, fun hlh hbuf => ⟨fun hdir => by simp at hdir,
                fun _ => ?_⟩⟩
            apply round2_mono
            have hsb2 : decide (candle.close < orr.low) = true := by
              rw [Bool.and_eq_true] at hsb
              exact hsb.1
            have hlt := of_decide_eq_true hsb2
            linarith
          · exact Or.inl rfl
        · exact Or.inl rfl
  | wick =>
    simp only [tryEntry, hconf]
    by_cases hmax : s.tradesCount ≥ config.maxTradesPerDay
    · rw [if_pos hmax]
      exact Or.inl rfl
    · rw [if_neg hmax]
      split
      · next hlb =>
        split
        · next hsh =>
          refine Or.inr ⟨_, _, rfl, rfl, rfl, rfl, rfl, hsh, round2_idem _,
            round2_idem _, fun hlh hbuf => ⟨fun _ => ?_,
              fun hdir => by simp at hdir⟩⟩
          apply round2_mono
          have h01 : (0:ℚ) ≤ 0.01 := by norm_num
          linarith
        · exact Or.inl rfl
      · split
        · next hsb =>
          split
          · next hsh =>
            refine Or.inr ⟨_, _, rfl, rfl, rfl, rfl, rfl, hsh, round2_idem _,
              round2_idem _, fun hlh hbuf => ⟨fun hdir => by simp at hdir,
                fun _ => ?_⟩⟩
            apply round2_mono
            have h01 : (0:ℚ) ≤ 0.01 := by norm_num
            linarith
          · exact Or.inl rfl
        · exact Or.inl rfl

theorem mkClosed_reason_ne_eod (config : Config) (t0 t3 : ActiveTrade)
    (candle : Candle) :
    (mkClosed t3 candle (exitCheck config t0 candle)).exitReason ≠
      .endOfDay :=
  exitReason_getD_ne_eod config t0 candle

theorem processActive_spec (config : Config) (orr : OpeningRange)
    (s : DayState) (candle : Candle) (t0 : ActiveTrade) :
    (∃ t1 newSigs,
      processActive config orr s candle t0 =
        { trades := s.trades, signals := s.signals ++ newSigs,
          active := some t1, tradesCount := s.tradesCount } ∧
      (∀ sig ∈ newSigs, sig.reasonOf = none ∧ sig.isExit = false) ∧
      t1.direction = t0.direction ∧ t1.entryPrice = t0.entryPrice ∧
      t1.entryTime = t0.entryTime ∧ t1.shares = t0.shares ∧
      (t1.currentStop = t0.currentStop ∨
        (config.usePartialProfits = true ∧ t1.currentStop = t0.entryPrice) ∨
        (∃ ns, config.usePartialProfits = false ∧ t1.currentStop = round2 ns ∧
          ((t0.direction = .long ∧ t0.currentStop < ns) ∨
           (t0.direction = .short ∧ ns < t0.currentStop)))) ∧
      ((∀ p ∈ config.partialProfitPercents, 0 ≤ p) → 0 ≤ t0.remainingShares →
        partialSharesSum t1.partialExits + t1.remainingShares =
          partialSharesSum t0.partialExits + t0.remainingShares ∧
        0 ≤ t1.remainingShares))
    ∨
    (∃ cl newSigs exitSig,
      processActive config orr s candle t0 =
        { trades := s.trades ++ [cl],
          signals := s.signals ++ newSigs ++ [exitSig],
          active := none, tradesCount := s.tradesCount } ∧
      (∀ sig ∈ newSigs, sig.reasonOf = none ∧ sig.isExit = false) ∧
      exitSig.isExit = true ∧ exitSig.reasonOf = some cl.exitReason ∧
      cl.exitTime = candle.time ∧ cl.exitReason ≠ .endOfDay ∧
      cl.shares = t0.shares ∧
      ((∀ p ∈ config.partialProfitPercents, 0 ≤ p) → 0 ≤ t0.remainingShares →
        partialSharesSum t0.partialExits + t0.remainingShares = t0.shares →
        partialSharesSum cl.partialExits = cl.shares)) := by
  simp only [processActive, applyPartials]
  by_cases hup : ¬ exitTruthy (exitCheck config t0 candle) = true ∧
      config.usePartialProfits = true
  · have hntr : ¬ (¬ exitTruthy (exitCheck config t0 candle) = true ∧
        config.trailingStop = true ∧ ¬ config.usePartialProfits = true) :=
      fun hc => hc.2.2 hup.2
    rw [if_pos hup, if_neg hntr]
    obtain ⟨hdir, hep, het, hsh, hstop, hsum⟩ := applyPartialsGo_spec config
      orr.rangeSize candle (config.riskRewardTargets.drop t0.nextTargetIdx)
      (config.partialProfitPercents.drop t0.nextTargetIdx) t0.nextTargetIdx t0 []
    obtain ⟨nsigs, hnsigs, hnsprop⟩ := applyPartialsGo_signals config
      orr.rangeSize candle (config.riskRewardTargets.drop t0.nextTargetIdx)
      (config.partialProfitPercents.drop t0.nextTargetIdx) t0.nextTargetIdx t0 []
    rw [List.nil_append] at hnsigs
    have hpdrop : ∀ hp : (∀ p ∈ config.partialProfitPercents, 0 ≤ p),
        ∀ p ∈ config.partialProfitPercents.drop t0.nextTargetIdx, 0 ≤ p :=
      fun hp p hmem => hp p (List.drop_subset _ _ hmem)
    split
    · next hfin =>
      split
      · next hpush =>
        refine Or.inr ⟨_, _, _, rfl, ?_, rfl, rfl, rfl,
          exitReason_getD_ne_eod config t0 candle, hsh, ?_⟩
        · intro sig hsig
          rw [hnsigs] at hsig
          exact hnsprop sig hsig
        · intro hp hrem hsum0
          obtain ⟨Hsum, Hnn⟩ := hsum (hpdrop hp) hrem
          simp only [mkClosed, partialSharesSum_append]
          rw [hsh]
          omega
      · next hpush =>
        refine Or.inr ⟨_, _, _, rfl, ?_, rfl, rfl, rfl,
          exitReason_getD_ne_eod config t0 candle, hsh, ?_⟩
        · intro sig hsig
          rw [hnsigs] at hsig
          exact hnsprop sig hsig
        · intro hp hrem hsum0
          obtain ⟨Hsum, Hnn⟩ := hsum (hpdrop hp) hrem
          simp only [mkClosed]
          rw [hsh]
          rcases hfin with hf | hf
          · have h0 : ¬ (0:ℤ) < (applyPartialsGo config orr.rangeSize candle
                (config.riskRewardTargets.drop t0.nextTargetIdx)
                (config.partialProfitPercents.drop t0.nextTargetIdx)
                t0.nextTargetIdx t0 []).1.remainingShares :=
              fun hlt => hpush ⟨hlt, hf⟩
            omega
          · omega
    · next hfin =>
      refine Or.inl ⟨_, _, rfl, ?_, ?_, ?_, ?_, ?_, ?_, ?_⟩
      · intro sig hsig
        rw [hnsigs] at hsig
        exact hnsprop sig hsig
      · exact (trackExcursion_spec _ _).1.trans hdir
      · exact (trackExcursion_spec _ _).2.1.trans hep
      · exact (trackExcursion_spec _ _).2.2.1.trans het
      · exact (trackExcursion_spec _ _).2.2.2.1.trans hsh
      · rw [(trackExcursion_spec _ _).2.2.2.2.2.2.2]
        rcases hstop with h | h
        · exact Or.inl h
        · exact Or.inr (Or.inl ⟨hup.2, h.trans hep.symm ▸ h⟩)
      · intro hp hrem
        obtain ⟨Hsum, Hnn⟩ := hsum (hpdrop hp) hrem
        rw [(trackExcursion_spec _ _).2.2.2.2.2.1,
          (trackExcursion_spec _ _).2.2.2.2.1]
        exact ⟨Hsum, Hnn⟩
  · rw [if_neg hup]
    by_cases htr : ¬ exitTruthy (exitCheck config t0 candle) = true ∧
        config.trailingStop = true ∧ ¬ config.usePartialProfits = true
    · rw [if_pos htr]
      have hupf : config.usePartialProfits = false :=
        Bool.eq_false_iff.mpr htr.2.2
      obtain ⟨hdir, hep, het, hsh, hrem', hpes, hnti, hstop⟩ :=
        applyTrailing_spec config orr candle t0
      split
      · next hfin =>
        split
        · next hpush =>
          refine Or.inr ⟨_, _, _, rfl, ?_, rfl, rfl, rfl,
            exitReason_getD_ne_eod config t0 candle, hsh, ?_⟩
          · intro sig hsig
            cases hsig
          · intro hp hrem hsum0
            simp only [mkClosed, partialSharesSum_append]
            rw [hsh, hpes, hrem']
            omega
        · next hpush =>
          refine Or.inr ⟨_, _, _, rfl, ?_, rfl, rfl, rfl,
            exitReason_getD_ne_eod config t0 candle, hsh, ?_⟩
          · intro sig hsig
            cases hsig
          · intro hp hrem hsum0
            simp only [mkClosed]
            rw [hsh, hpes]
            rw [hrem'] at hpush hfin
            rcases hfin with hf | hf
            · have h0 : ¬ (0:ℤ) < t0.remainingShares :=
                fun hlt => hpush ⟨hlt, hf⟩
              omega
            · omega
      · next hfin =>
        refine Or.inl ⟨_, _, rfl, ?_, ?_, ?_, ?_, ?_, ?_, ?_⟩
        · intro sig hsig
          cases hsig
        · exact (trackExcursion_spec _ _).1.trans hdir
        · exact (trackExcursion_spec _ _).2.1.trans hep
        · exact (trackExcursion_spec _ _).2.2.1.trans het
        · exact (trackExcursion_spec _ _).2.2.2.1.trans hsh
        · rw [(trackExcursion_spec _ _).2.2.2.2.2.2.2]
          rcases hstop with h | ⟨ns, hns, hcond⟩
          · exact Or.inl h
          · exact Or.inr (Or.inr ⟨ns, hupf, hns, hcond⟩)
        · intro hp hrem
          rw [(trackExcursion_spec _ _).2.2.2.2.2.1,
            (trackExcursion_spec _ _).2.2.2.2.1, hpes, hrem']
          exact ⟨rfl, hrem⟩
    · rw [if_neg htr]
      dsimp only
      split
      · next hfin =>
        split
        · next hpush =>
          refine Or.inr ⟨_, _, _, rfl, ?_, rfl, rfl, rfl,
            exitReason_getD_ne_eod config t0 candle, rfl, ?_⟩
          · intro sig hsig
            cases hsig
          · intro hp hrem hsum0
            simp only [mkClosed, partialSharesSum_append]
            omega
        · next hpush =>
          refine Or.inr ⟨_, _, _, rfl, ?_, rfl, rfl, rfl,
            exitReason_getD_ne_eod config t0 candle, rfl, ?_⟩
          · intro sig hsig
            cases hsig
          · intro hp hrem hsum0
            simp only [mkClosed]
            rcases hfin with hf | hf
            · have h0 : ¬ (0:ℤ) < t0.remainingShares :=
                fun hlt => hpush ⟨hlt, hf⟩
              omega
            · omega
      · next hfin =>
        refine Or.inl ⟨_, _, rfl, ?_, ?_, ?_, ?_, ?_, ?_, ?_⟩
        · intro sig hsig
          cases hsig
        · exact (trackExcursion_spec _ _).1
        · exact (trackExcursion_spec _ _).2.1
        · exact (trackExcursion_spec _ _).2.2.1
        · exact (trackExcursion_spec _ _).2.2.2.1
        · rw [(trackExcursion_spec _ _).2.2.2.2.2.2.2]
          exact Or.inl rfl
        · intro hp hrem
          rw [(trackExcursion_spec _ _).2.2.2.2.2.1,
            (trackExcursion_spec _ _).2.2.2.2.1]
          exact ⟨rfl, hrem⟩

theorem foldl_inv {σ α : Type} (f : σ → α → σ) (P : σ → Prop) :
    ∀ (l : List α) (s : σ), (∀ s' c, c ∈ l → P s' → P (f s' c)) → P s →
      P (l.foldl f s) := by
  intro l
  induction l with
  | nil => intro s _ hs; exact hs
  | cons c rest ih =>
    intro s hstep hs
    exact ih (f s c)
      (fun s' c' hc' => hstep s' c' (List.mem_cons_of_mem _ hc'))
      (hstep s c (List.mem_cons_self _ _) hs)

theorem exitSignalCount_zero {ns : List Signal}
    (h : ∀ sig ∈ ns, sig.isExit = false) : exitSignalCount ns = 0 := by
  unfold exitSignalCount
  rw [List.filter_eq_nil.mpr]
  · rfl
  · intro sig hm
    rw [h sig hm]
    exact Bool.false_ne_true

theorem exitSignalCount_single_exit {es : Signal} (h : es.isExit = true) :
    exitSignalCount [es] = 1 := by
  unfold exitSignalCount
  rw [List.filter_cons, if_pos h]
  rfl

theorem runDay_eq_final (candles : List Candle) (config : Config)
    (accountSize : ℚ) :
    (runDay candles config accountSize).trades =
      (runDayFinal candles config accountSize).trades ∧
    (runDay candles config accountSize).signals =
      (runDayFinal candles config accountSize).signals := by
  unfold runDay runDayFinal
  cases h : computeOpeningRange candles config
  · exact ⟨rfl, rfl⟩
  · cases lastElem? candles <;> exact ⟨rfl, rfl⟩

theorem endOfDayClose_spec (s : DayState) (lastCandle : Candle) :
    (s.active = none ∧ endOfDayClose s lastCandle = s) ∨
    (∃ t cl, s.active = some t ∧
      endOfDayClose s lastCandle =
        { trades := s.trades ++ [cl], signals := s.signals, active := none,
          tradesCount := s.tradesCount } ∧
      cl.exitTime = lastCandle.time ∧ cl.exitReason = .endOfDay ∧
      cl.remainingShares = 0 ∧ cl.shares = t.shares ∧
      cl.partialExits = t.partialExits ++
        [{ time := lastCandle.time, price := lastCandle.close,
           shares := t.remainingShares, target := -1,
           pnl := round2 (dirSign t.direction *
             (lastCandle.close - t.entryPrice) * (t.remainingShares : ℚ)) }]) := by
  cases hact : s.active with
  | none =>
    left
    refine ⟨rfl, ?_⟩
    unfold endOfDayClose
    rw [hact]
  | some t =>
    right
    unfold endOfDayClose
    rw [hact]
    exact ⟨t, _, rfl, rfl, rfl, rfl, rfl, rfl, rfl⟩

theorem step_p10 (config : Config) (orr : OpeningRange) (accountSize : ℚ)
    (s : DayState) (candle : Candle)
    (h : exitSignalCount s.signals = s.trades.length ∧
      (∀ t ∈ s.trades, t.exitReason ≠ .endOfDay) ∧
      (∀ sig ∈ s.signals, sig.reasonOf ≠ some .endOfDay)) :
    exitSignalCount (step config orr accountSize s candle).signals =
      (step config orr accountSize s candle).trades.length ∧
    (∀ t ∈ (step config orr accountSize s candle).trades,
      t.exitReason ≠ .endOfDay) ∧
    (∀ sig ∈ (step config orr accountSize s candle).signals,
      sig.reasonOf ≠ some .endOfDay) := by
  obtain ⟨h1, h2, h3⟩ := h
  cases hact : s.active with
  | none =>
    have hstep : step config orr accountSize s candle =
        tryEntry config orr accountSize s candle := by
      unfold step
      rw [hact]
    rw [hstep]
    rcases tryEntry_spec config orr accountSize s candle with
      heq | ⟨a, es, heq, hr, hx, -⟩
    · rw [heq]
      exact ⟨h1, h2, h3⟩
    · rw [heq]
      dsimp only
      refine ⟨?_, h2, ?_⟩
      · rw [exitSignalCount_append,
          exitSignalCount_zero (show ∀ sig ∈ [es], sig.isExit = false from
            fun sig hm => by rw [List.mem_singleton.mp hm]; exact hx), h1]
        omega
      · intro sig hsig
        rcases List.mem_append.mp hsig with hm | hm
        · exact h3 sig hm
        · rw [List.mem_singleton.mp hm, hr]
          simp
  | some t0 =>
    have hstep : step config orr accountSize s candle =
        processActive config orr s candle t0 := by
      unfold step
      rw [hact]
    rw [hstep]
    rcases processActive_spec config orr s candle t0 with
      ⟨t1, ns, heq, hns, -⟩ |
      ⟨cl, ns, es, heq, hns, hex, hereason, -, hne, -⟩
    · rw [heq]
      dsimp only
      refine ⟨?_, h2, ?_⟩
      · rw [exitSignalCount_append,
          exitSignalCount_zero (fun sig hm => (hns sig hm).2), h1]
        omega
      · intro sig hsig
        rcases List.mem_append.mp hsig with hm | hm
        · exact h3 sig hm
        · rw [(hns sig hm).1]
          simp
    · rw [heq]
      dsimp only
      refine ⟨?_, ?_, ?_⟩
      · rw [exitSignalCount_append, exitSignalCount_append,
          exitSignalCount_zero (fun sig hm => (hns sig hm).2),
          exitSignalCount_single_exit hex, List.length_append, h1]
        simp
      · intro t ht
        rcases List.mem_append.mp ht with hm | hm
        · exact h2 t hm
        · rw [List.mem_singleton.mp hm]
          exact hne
      · intro sig hsig
        rcases List.mem_append.mp hsig with hm | hm
        · rcases List.mem_append.mp hm with hm2 | hm2
          · exact h3 sig hm2
          · rw [(hns sig hm2).1]
            simp
        · rw [List.mem_singleton.mp hm, hereason]
          intro hcontra
          exact hne (Option.some.inj hcontra)

theorem filter_ne_eod_all (l : List ClosedTrade)
    (hl : ∀ t ∈ l, t.exitReason ≠ .endOfDay) :
    (l.filter (fun t => t.exitReason ≠ ExitReason.endOfDay)).length =
      l.length := by
  rw [List.filter_eq_self.mpr (fun a ha => decide_eq_true (hl a ha))]

/-! ### Claim C10 -/

/-- **C10.**  `runDay` appends an EXIT signal for every trade finalized
during the candle loop, while the end-of-day force close records its
terminal partial exit without appending any signal: the number of EXIT
entries in the signal log equals the number of trades whose exit reason is
not "End of Day", and no signal in the log carries the reason
"End of Day". -/
theorem c10_no_exit_signal_for_eod (candles : List Candle) (config : Config)
    (accountSize : ℚ) :
    exitSignalCount (runDay candles config accountSize).signals =
      ((runDay candles config accountSize).trades.filter
        (fun t => t.exitReason ≠ ExitReason.endOfDay)).length ∧
    ∀ sig ∈ (runDay candles config accountSize).signals,
      sig.reasonOf ≠ some .endOfDay := by
  obtain ⟨htr, hsg⟩ := runDay_eq_final candles config accountSize
  rw [htr, hsg]
  unfold runDayFinal
  cases hor : computeOpeningRange candles config with
  | none =>
    dsimp only
    exact ⟨rfl, by intro sig hcontra; cases hcontra⟩
  | some orr =>
    dsimp only
    have hfold := foldl_inv (step config orr accountSize)
      (fun st => exitSignalCount st.signals = st.trades.length ∧
        (∀ t ∈ st.trades, t.exitReason ≠ .endOfDay) ∧
        (∀ sg ∈ st.signals, sg.reasonOf ≠ some .endOfDay))
      (candles.drop (config.openingRangeMinutes + config.avoidFirstMinutes))
      initDayState
      (fun s' c _ h => step_p10 config orr accountSize s' c h)
      ⟨rfl, (by intro t hcontra; cases hcontra),
        (by intro sg hcontra; cases hcontra)⟩
    cases hlast : lastElem? candles with
    | none =>
      dsimp only
      refine ⟨?_, hfold.2.2⟩
      rw [filter_ne_eod_all _ hfold.2.1]
      exact hfold.1
    | some lc =>
      dsimp only
      rcases endOfDayClose_spec ((candles.drop (config.openingRangeMinutes +
          config.avoidFirstMinutes)).foldl (step config orr accountSize)
          initDayState) lc with ⟨hnone, heq⟩ | ⟨t, cl, hsome, heq, -, hreason, -⟩
      · rw [heq]
        refine ⟨?_, hfold.2.2⟩
        rw [filter_ne_eod_all _ hfold.2.1]
        exact hfold.1
      · rw [heq]
        dsimp only
        refine ⟨?_, hfold.2.2⟩
        rw [List.filter_append]
        have hcl : List.filter (fun t => t.exitReason ≠ ExitReason.endOfDay)
            [cl] = [] := by
          rw [List.filter_cons, if_neg]
          · rfl
          · rw [hreason]
            simp
        rw [hcl, List.append_nil, filter_ne_eod_all _ hfold.2.1]
        exact hfold.1

theorem lastOfCons_append {α : Type} :
    ∀ (l : List α) (c x : α), lastOfCons c (l ++ [x]) = x := by
  intro l
  induction l with
  | nil => intro c x; rfl
  | cons c' r ih => intro c x; exact ih c' x

theorem lastElem?_append_singleton {α : Type} (l : List α) (x : α) :
    lastElem? (l ++ [x]) = some x := by
  cases l with
  | nil => rfl
  | cons c r =>
    show some (lastOfCons c (r ++ [x])) = some x
    rw [lastOfCons_append]

theorem step_p4 (config : Config) (orr : OpeningRange) (accountSize : ℚ)
    (lastTime : ℤ) (s : DayState) (candle : Candle)
    (hc : candle.time ≤ lastTime)
    (h : ∀ t ∈ s.trades, t.exitTime ≤ lastTime ∧ t.exitReason ≠ .endOfDay) :
    ∀ t ∈ (step config orr accountSize s candle).trades,
      t.exitTime ≤ lastTime ∧ t.exitReason ≠ .endOfDay := by
  cases hact : s.active with
  | none =>
    have hstep : step config orr accountSize s candle =
        tryEntry config orr accountSize s candle := by
      unfold step
      rw [hact]
    rw [hstep]
    rcases tryEntry_spec config orr accountSize s candle with
      heq | ⟨a, es, heq, -⟩
    · rw [heq]
      exact h
    · rw [heq]
      exact h
  | some t0 =>
    have hstep : step config orr accountSize s candle =
        processActive config orr s candle t0 := by
      unfold step
      rw [hact]
    rw [hstep]
    rcases processActive_spec config orr s candle t0 with
      ⟨t1, ns, heq, -⟩ | ⟨cl, ns, es, heq, -, -, -, hext, hne, -, -⟩
    · rw [heq]
      exact h
    · rw [heq]
      dsimp only
      intro t ht
      rcases List.mem_append.mp ht with hm | hm
      · exact h t hm
      · rw [List.mem_singleton.mp hm]
        exact ⟨le_of_eq hext |>.trans hc, hne⟩

/-! ### Claim C4 -/

/-- **C4.**  For every (time-ascending) candle list and configuration,
every trade returned by `runDay` has `exitTime` on or before the time of
the day's last candle; a trade still active after the last candle is
force-closed at that candle's close price with exit reason "End of Day"
and zero remaining shares. -/
theorem c4_no_overnight_exposure (candles : List Candle) (config : Config)
    (accountSize : ℚ) (last : Candle)
    (hlast : lastElem? candles = some last)
    (hmono : ∀ c ∈ candles, c.time ≤ last.time) :
    ∀ t ∈ (runDay candles config accountSize).trades,
      t.exitTime ≤ last.time ∧
      (t.exitReason = .endOfDay →
        t.remainingShares = 0 ∧ t.exitTime = last.time ∧
        lastElem? (t.partialExits.map (·.price)) = some last.close) := by
  obtain ⟨htr, -⟩ := runDay_eq_final candles config accountSize
  rw [htr]
  unfold runDayFinal
  cases hor : computeOpeningRange candles config with
  | none =>
    dsimp only
    intro t ht
    cases ht
  | some orr =>
    dsimp only
    have hfold := foldl_inv (step config orr accountSize)
      (fun st => ∀ t ∈ st.trades,
        t.exitTime ≤ last.time ∧ t.exitReason ≠ .endOfDay)
      (candles.drop (config.openingRangeMinutes + config.avoidFirstMinutes))
      initDayState
      (fun s' c hcmem hinv => step_p4 config orr accountSize last.time s' c
        (hmono c (List.drop_subset _ _ hcmem)) hinv)
      (by intro t ht; cases ht)
    rw [hlast]
    dsimp only
    rcases endOfDayClose_spec ((candles.drop (config.openingRangeMinutes +
        config.avoidFirstMinutes)).foldl (step config orr accountSize)
        initDayState) last with
      ⟨-, heq⟩ | ⟨t0, cl, -, heq, hext, hreason, hrem0, -, hpes⟩
    · rw [heq]
      intro t ht
      exact ⟨(hfold t ht).1, fun habs => absurd habs (hfold t ht).2⟩
    · rw [heq]
      dsimp only
      intro t ht
      rcases List.mem_append.mp ht with hm | hm
      · exact ⟨(hfold t hm).1, fun habs => absurd habs (hfold t hm).2⟩
      · rw [List.mem_singleton.mp hm]
        refine ⟨le_of_eq hext, fun _ => ⟨hrem0, hext, ?_⟩⟩
        rw [hpes, List.map_append]
        exact lastElem?_append_singleton _ _

/-- **C4, witness.**  The hypotheses are satisfiable on the Scenario A/B
candle list, whose last candle is at time 960000. -/
theorem c4_witness :
    lastElem? scenarioCandles = some ⟨960000, 100.5, 100.6, 99.8, 100, 1000⟩ ∧
    ∀ t ∈ (runDay scenarioCandles scenarioConfig 100000).trades,
      t.exitTime ≤ (960000 : ℤ) := by
  have hlast : lastElem? scenarioCandles =
      some ⟨960000, 100.5, 100.6, 99.8, 100, 1000⟩ := by
    norm_num [lastElem?, lastOfCons, scenarioCandles]
  have hmono : ∀ c ∈ scenarioCandles,
      c.time ≤ (Candle.mk 960000 100.5 100.6 99.8 100 1000).time := by
    norm_num [scenarioCandles, List.forall_mem_cons]
  refine ⟨hlast, fun t ht => ?_⟩
  exact (c4_no_overnight_exposure scenarioCandles scenarioConfig 100000
    ⟨960000, 100.5, 100.6, 99.8, 100, 1000⟩ hlast hmono t ht).1

theorem step_p5 (config : Config) (orr : OpeningRange) (accountSize : ℚ)
    (hp : ∀ p ∈ config.partialProfitPercents, 0 ≤ p) (s : DayState)
    (candle : Candle)
    (h1 : ∀ t ∈ s.trades, partialSharesSum t.partialExits = t.shares)
    (h2 : ∀ a, s.active = some a →
      partialSharesSum a.partialExits + a.remainingShares = a.shares ∧
      0 ≤ a.remainingShares) :
    (∀ t ∈ (step config orr accountSize s candle).trades,
      partialSharesSum t.partialExits = t.shares) ∧
    (∀ a, (step config orr accountSize s candle).active = some a →
      partialSharesSum a.partialExits + a.remainingShares = a.shares ∧
      0 ≤ a.remainingShares) := by
  cases hact : s.active with
  | none =>
    have hstep : step config orr accountSize s candle =
        tryEntry config orr accountSize s candle := by
      unfold step
      rw [hact]
    rw [hstep]
    rcases tryEntry_spec config orr accountSize s candle with
      heq | ⟨a, es, heq, -, -, hpes, hremsh, hshpos, -, -, -⟩
    · rw [heq]
      exact ⟨h1, h2⟩
    · rw [heq]
      dsimp only
      refine ⟨h1, ?_⟩
      intro a' ha'
      have haa : a = a' := Option.some.inj ha'
      subst haa
      rw [hpes, hremsh]
      refine ⟨by simp [partialSharesSum], by omega⟩
  | some t0 =>
    have hstep : step config orr accountSize s candle =
        processActive config orr s candle t0 := by
      unfold step
      rw [hact]
    rw [hstep]
    rcases processActive_spec config orr s candle t0 with
      ⟨t1, ns, heq, -, -, -, -, hsh1, -, hsum1⟩ |
      ⟨cl, ns, es, heq, -, -, -, -, -, hshcl, hsumcl⟩
    · rw [heq]
      dsimp only
      refine ⟨h1, ?_⟩
      intro a' ha'
      have haa : t1 = a' := Option.some.inj ha'
      subst haa
      obtain ⟨hs0, hr0⟩ := h2 t0 hact
      obtain ⟨Hsum, Hnn⟩ := hsum1 hp hr0
      refine ⟨?_, Hnn⟩
      rw [Hsum, hs0, hsh1]
    · rw [heq]
      dsimp only
      refine ⟨?_, ?_⟩
      · intro t ht
        rcases List.mem_append.mp ht with hm | hm
        · exact h1 t hm
        · rw [List.mem_singleton.mp hm]
          obtain ⟨hs0, hr0⟩ := h2 t0 hact
          exact hsumcl hp hr0 hs0
      · intro a' ha'
        exact Option.noConfusion ha'

/-! ### Claim C5 -/

/-- **C5.**  Share conservation: for every closed trade produced by
`runDay` (under non-negative partial-profit fractions, as configured), the
partial exits' shares sum to the trade's original share count, and the
remaining-share count of the live trade never becomes negative at any
point of the candle loop. -/
theorem c5_share_conservation (candles : List Candle) (config : Config)
    (accountSize : ℚ)
    (hp : ∀ p ∈ config.partialProfitPercents, 0 ≤ p) :
    (∀ t ∈ (runDay candles config accountSize).trades,
      partialSharesSum t.partialExits = t.shares) ∧
    (∀ n a, (runDayState candles config accountSize n).active = some a →
      0 ≤ a.remainingShares) := by
  constructor
  · obtain ⟨htr, -⟩ := runDay_eq_final candles config accountSize
    rw [htr]
    unfold runDayFinal
    cases hor : computeOpeningRange candles config with
    | none =>
      dsimp only
      intro t ht
      cases ht
    | some orr =>
      dsimp only
      have hfold := foldl_inv (step config orr accountSize)
        (fun st => (∀ t ∈ st.trades,
            partialSharesSum t.partialExits = t.shares) ∧
          (∀ a, st.active = some a →
            partialSharesSum a.partialExits + a.remainingShares = a.shares ∧
            0 ≤ a.remainingShares))
        (candles.drop (config.openingRangeMinutes + config.avoidFirstMinutes))
        initDayState
        (fun s' c _ hpair =>
          step_p5 config orr accountSize hp s' c hpair.1 hpair.2)
        ⟨(by intro t ht; cases ht), fun a ha => Option.noConfusion ha⟩
      cases hlast : lastElem? candles with
      | none =>
        dsimp only
        exact hfold.1
      | some lc =>
        dsimp only
        rcases endOfDayClose_spec ((candles.drop (config.openingRangeMinutes +
            config.avoidFirstMinutes)).foldl (step config orr accountSize)
            initDayState) lc with
          ⟨-, heq⟩ | ⟨t0, cl, hsome, heq, -, -, -, hshcl, hpescl⟩
        · rw [heq]
          exact hfold.1
        · rw [heq]
          dsimp only
          intro t ht
          rcases List.mem_append.mp ht with hm | hm
          · exact hfold.1 t hm
          · rw [List.mem_singleton.mp hm]
            obtain ⟨hs0, -⟩ := hfold.2 t0 hsome
            rw [hshcl, hpescl, partialSharesSum_append]
            dsimp only
            omega
  · intro n a ha
    unfold runDayState at ha
    cases hor : computeOpeningRange candles config with
    | none =>
      rw [hor] at ha
      exact Option.noConfusion ha
    | some orr =>
      rw [hor] at ha
      dsimp only at ha
      have hfold := foldl_inv (step config orr accountSize)
        (fun st => (∀ t ∈ st.trades,
            partialSharesSum t.partialExits = t.shares) ∧
          (∀ a, st.active = some a →
            partialSharesSum a.partialExits + a.remainingShares = a.shares ∧
            0 ≤ a.remainingShares))
        ((candles.drop (config.openingRangeMinutes +
          config.avoidFirstMinutes)).take n)
        initDayState
        (fun s' c _ hpair =>
          step_p5 config orr accountSize hp s' c hpair.1 hpair.2)
        ⟨(by intro t ht; cases ht), fun a ha => Option.noConfusion ha⟩
      exact (hfold.2 a ha).2

/-- **C5, witness.**  The non-negativity hypothesis holds for the
scenario configuration (default partial fractions 0.33/0.33/0.34). -/
theorem c5_witness :
    (∀ p ∈ scenarioConfig.partialProfitPercents, 0 ≤ p) ∧
    ∀ t ∈ (runDay scenarioCandles scenarioConfig 100000).trades,
      partialSharesSum t.partialExits = t.shares := by
  have hp : ∀ p ∈ scenarioConfig.partialProfitPercents, 0 ≤ p := by
    norm_num [scenarioConfig, DEFAULT_CONFIG, List.forall_mem_cons]
  exact ⟨hp,
    (c5_share_conservation scenarioCandles scenarioConfig 100000 hp).1⟩

/-! ### Claim C6 -/

theorem openingRange_low_le_high (candles : List Candle) (config : Config)
    (orr : OpeningRange)
    (hor : computeOpeningRange candles config = some orr)
    (hval : ∀ c ∈ candles.take config.openingRangeMinutes, c.low ≤ c.high) :
    orr.low ≤ orr.high := by
  unfold computeOpeningRange at hor
  by_cases hlen : (candles.take config.openingRangeMinutes).length <
      config.openingRangeMinutes
  · rw [if_pos hlen] at hor
    exact Option.noConfusion hor
  · rw [if_neg hlen] at hor
    cases htake : candles.take config.openingRangeMinutes with
    | nil =>
      rw [htake] at hor
      exact Option.noConfusion hor
    | cons c0 rest =>
      rw [htake] at hor
      have hrec := Option.some.inj hor
      rw [← hrec]
      show round2 (rest.foldl (fun b c => if c.low < b then c.low else b)
          c0.low) ≤
        round2 (rest.foldl (fun h c => if c.high > h then c.high else h)
          c0.high)
      apply round2_mono
      refine le_trans ((foldl_low_le rest c0.low).1)
        (le_trans ?_ ((foldl_high_le rest c0.high).1))
      exact hval c0 (by rw [htake]; exact List.mem_cons_self _ _)

theorem step_p6 (config : Config) (orr : OpeningRange) (accountSize : ℚ)
    (hlh : orr.low ≤ orr.high) (hbuf : 0 ≤ config.stopLossBuffer)
    (s : DayState) (candle : Candle)
    (h : ∀ a, s.active = some a → ActiveInv config a) :
    ∀ b, (step config orr accountSize s candle).active = some b →
      ActiveInv config b := by
  intro b hb
  cases hact : s.active with
  | none =>
    have hstep : step config orr accountSize s candle =
        tryEntry config orr accountSize s candle := by
      unfold step
      rw [hact]
    rw [hstep] at hb
    rcases tryEntry_spec config orr accountSize s candle with
      heq | ⟨a, es, heq, -, -, -, -, -, hr2s, hr2e, hbounds⟩
    · rw [heq, hact] at hb
      exact Option.noConfusion hb
    · rw [heq] at hb
      dsimp only at hb
      have hab : a = b := Option.some.inj hb
      subst hab
      exact ⟨hr2s, hr2e, fun _ => hbounds hlh hbuf⟩
  | some t0 =>
    have hstep : step config orr accountSize s candle =
        processActive config orr s candle t0 := by
      unfold step
      rw [hact]
    rw [hstep] at hb
    have hinv := h t0 hact
    rcases processActive_spec config orr s candle t0 with
      ⟨t1, ns, heq, -, hdir, hep, -, -, hstop, -⟩ |
      ⟨cl, ns, es, heq, -, -, -, -, -, -, -⟩
    · rw [heq] at hb
      dsimp only at hb
      have hab : t1 = b := Option.some.inj hb
      subst hab
      refine ⟨?_, ?_, ?_⟩
      · rcases hstop with h1 | ⟨hup, h2⟩ | ⟨ns', hupf, hns, -⟩
        · rw [h1]
          exact hinv.1
        · rw [h2]
          exact hinv.2.1
        · rw [hns]
          exact round2_idem _
      · rw [hep]
        exact hinv.2.1
      · intro hup
        constructor
        · intro hdirb
          rw [hep]
          rw [hdir] at hdirb
          rcases hstop with h1 | ⟨-, h2⟩ | ⟨ns', hupf, -, -⟩
          · rw [h1]
            exact (hinv.2.2 hup).1 hdirb
          · rw [h2]
          · rw [hup] at hupf
            exact Bool.noConfusion hupf
        · intro hdirb
          rw [hep]
          rw [hdir] at hdirb
          rcases hstop with h1 | ⟨-, h2⟩ | ⟨ns', hupf, -, -⟩
          · rw [h1]
            exact (hinv.2.2 hup).2 hdirb
          · rw [h2]
          · rw [hup] at hupf
            exact Bool.noConfusion hupf
    · rw [heq] at hb
      exact Option.noConfusion hb

theorem step_stop_mono (config : Config) (orr : OpeningRange)
    (accountSize : ℚ) (s : DayState) (candle : Candle) (a b : ActiveTrade)
    (hinv : ActiveInv config a)
    (ha : s.active = some a)
    (hb : (step config orr accountSize s candle).active = some b) :
    b.direction = a.direction ∧
    (a.direction = .long → a.currentStop ≤ b.currentStop) ∧
    (a.direction = .short → b.currentStop ≤ a.currentStop) := by
  have hstep : step config orr accountSize s candle =
      processActive config orr s candle a := by
    unfold step
    rw [ha]
  rw [hstep] at hb
  rcases processActive_spec config orr s candle a with
    ⟨t1, ns, heq, -, hdir, hep, -, -, hstop, -⟩ |
    ⟨cl, ns, es, heq, -, -, -, -, -, -, -⟩
  · rw [heq] at hb
    dsimp only at hb
    have hbt : t1 = b := Option.some.inj hb
    subst hbt
    refine ⟨hdir, ?_, ?_⟩
    · intro hdirL
      rcases hstop with h1 | ⟨hup, h2⟩ | ⟨ns', hupf, hns, hcond⟩
      · rw [h1]
      · rw [h2]
        exact (hinv.2.2 hup).1 hdirL
      · rcases hcond with ⟨-, hlt⟩ | ⟨hdirS, -⟩
        · rw [hns, ← hinv.1]
          exact round2_mono (le_of_lt hlt)
        · rw [hdirL] at hdirS
          simp at hdirS
    · intro hdirS
      rcases hstop with h1 | ⟨hup, h2⟩ | ⟨ns', hupf, hns, hcond⟩
      · rw [h1]
      · rw [h2]
        exact (hinv.2.2 hup).2 hdirS
      · rcases hcond with ⟨hdirL, -⟩ | ⟨-, hlt⟩
        · rw [hdirS] at hdirL
          simp at hdirL
        · rw [hns, ← hinv.1]
          exact round2_mono (le_of_lt hlt)
  · rw [heq] at hb
    exact Option.noConfusion hb

/-- **C6.**  Stop monotonicity: for a trade that is live both after `n`
and after `n + 1` candles of the loop, the stop of a LONG trade never
decreases and the stop of a SHORT trade never increases from one candle
to the next — the break-even move after the first partial target and
every trailing-stop update only tighten the stop (given valid
opening-range candles and a non-negative stop-loss buffer, both as
configured and generated). -/
theorem c6_stop_monotonicity (candles : List Candle) (config : Config)
    (accountSize : ℚ) (n : ℕ) (a b : ActiveTrade)
    (hval : ∀ c ∈ candles.take config.openingRangeMinutes, c.low ≤ c.high)
    (hbuf : 0 ≤ config.stopLossBuffer)
    (ha : (runDayState candles config accountSize n).active = some a)
    (hb : (runDayState candles config accountSize (n + 1)).active = some b) :
    b.direction = a.direction ∧
    (a.direction = .long → a.currentStop ≤ b.currentStop) ∧
    (a.direction = .short → b.currentStop ≤ a.currentStop) := by
  unfold runDayState at ha hb
  cases hor : computeOpeningRange candles config with
  | none =>
    rw [hor] at ha
    exact Option.noConfusion ha
  | some orr =>
    rw [hor] at ha hb
    dsimp only at ha hb
    by_cases hlen : (candles.drop (config.openingRangeMinutes +
        config.avoidFirstMinutes)).length ≤ n
    · rw [List.take_of_length_le hlen] at ha
      rw [List.take_of_length_le (le_trans hlen (Nat.le_succ n))] at hb
      have hab : a = b := Option.some.inj (ha.symm.trans hb)
      subst hab
      exact ⟨rfl, fun _ => le_refl _, fun _ => le_refl _⟩
    · push_neg at hlen
      have htak : (candles.drop (config.openingRangeMinutes +
          config.avoidFirstMinutes)).take (n + 1) =
          (candles.drop (config.openingRangeMinutes +
            config.avoidFirstMinutes)).take n ++
          [(candles.drop (config.openingRangeMinutes +
            config.avoidFirstMinutes)).get ⟨n, hlen⟩] := by
        rw [List.take_succ, List.getElem?_eq_getElem hlen]
        rfl
      rw [htak, List.foldl_append, List.foldl_cons, List.foldl_nil] at hb
      have hinv : ActiveInv config a :=
        foldl_inv (step config orr accountSize)
          (fun st => ∀ x, st.active = some x → ActiveInv config x)
          ((candles.drop (config.openingRangeMinutes +
            config.avoidFirstMinutes)).take n) initDayState
          (fun s' c _ hP => step_p6 config orr accountSize
            (openingRange_low_le_high candles config orr hor hval) hbuf s' c
            hP)
          (fun x hx => Option.noConfusion hx) a ha
      exact step_stop_mono config orr accountSize _ _ a b hinv ha hb

/-- **C6, witness.**  In the quiet-candle scenario the breakout trade is
live after one and after two loop candles, with the stop 99.90 unchanged
(only the adverse excursion is updated). -/
theorem c6_witness :
    ((∀ c ∈ c6Candles.take scenarioConfig.openingRangeMinutes,
        c.low ≤ c.high) ∧
      0 ≤ scenarioConfig.stopLossBuffer ∧
      (runDayState c6Candles scenarioConfig 100000 1).active =
        some scenarioActiveTrade ∧
      (runDayState c6Candles scenarioConfig 100000 2).active =
        some c6TradeAfter) ∧
    c6TradeAfter.direction = scenarioActiveTrade.direction ∧
    (scenarioActiveTrade.direction = .long →
      scenarioActiveTrade.currentStop ≤ c6TradeAfter.currentStop) ∧
    (scenarioActiveTrade.direction = .short →
      c6TradeAfter.currentStop ≤ scenarioActiveTrade.currentStop) := by
  have hval : ∀ c ∈ c6Candles.take scenarioConfig.openingRangeMinutes,
      c.low ≤ c.high := by
    norm_num [c6Candles, scenarioConfig, DEFAULT_CONFIG, List.take,
      List.forall_mem_cons]
  have hbuf : (0:ℚ) ≤ scenarioConfig.stopLossBuffer := by
    norm_num [scenarioConfig, DEFAULT_CONFIG]
  have ha : (runDayState c6Candles scenarioConfig 100000 1).active =
      some scenarioActiveTrade := by
    norm_num [runDayState, computeOpeningRange, c6Candles, scenarioConfig,
      DEFAULT_CONFIG, step, tryEntry, processActive, exitCheck, exitTruthy,
      applyPartials, applyPartialsGo, applyTrailing, trackExcursion,
      calculatePositionSize, dirSign, initDayState, round2, round3, roundTo,
      jsRound, jsFloor, scenarioActiveTrade, lastOfCons, lastElem?,
      List.foldl, List.take, List.drop, max_def]
  have hb : (runDayState c6Candles scenarioConfig 100000 2).active =
      some c6TradeAfter := by
    norm_num [runDayState, computeOpeningRange, c6Candles, scenarioConfig,
      DEFAULT_CONFIG, step, tryEntry, processActive, exitCheck, exitTruthy,
      applyPartials, applyPartialsGo, applyTrailing, trackExcursion,
      calculatePositionSize, dirSign, initDayState, round2, round3, roundTo,
      jsRound, jsFloor, c6TradeAfter, scenarioActiveTrade, lastOfCons,
      lastElem?, List.foldl, List.take, List.drop, max_def]
  exact ⟨⟨hval, hbuf, ha, hb⟩,
    c6_stop_monotonicity c6Candles scenarioConfig 100000 1
      scenarioActiveTrade c6TradeAfter hval hbuf ha hb⟩

/-! ### Claim C9 -/

/-- **C9.**  Each documented numeric degeneracy returns its defined
fallback and never NaN: the profit factor is `+∞` with zero losing trades
and positive gross profit and `0` with no trades; the Sharpe and Sortino
ratios are `0` when their denominators are `0`; and `monteCarloSimulation`
returns `null` for an empty trade list. -/
theorem c9_degeneracy_fallbacks (sqrtf : ℚ → ℚ) (trades : List BTrade)
    (equityCurve : List EquityPoint) (dailyReturns : List ℚ)
    (startingCapital : ℚ) (numSimulations : ℕ) :
    (computeMetrics sqrtf [] equityCurve dailyReturns
      startingCapital).profitFactor = .val 0 ∧
    ((trades.filter (fun t => t.netPnL ≤ 0)) = [] →
      0 < ((trades.filter (fun t => t.netPnL > 0)).map (·.netPnL)).sum →
      (computeMetrics sqrtf trades equityCurve dailyReturns
        startingCapital).profitFactor = .inf) ∧
    (stdDailyReturn sqrtf dailyReturns * sqrtf 252 = 0 →
      (computeMetrics sqrtf trades equityCurve dailyReturns
        startingCapital).sharpeRatio = 0) ∧
    (downsideStd sqrtf dailyReturns = 0 →
      (computeMetrics sqrtf trades equityCurve dailyReturns
        startingCapital).sortinoRatio = 0) ∧
    monteCarloSimulation [] startingCapital numSimulations = none := by
  refine ⟨?_, ?_, ?_, ?_, ?_⟩
  · simp [computeMetrics]
  · intro h1 h2
    simp only [computeMetrics]
    rw [h1]
    simp only [List.map_nil, List.sum_nil, abs_zero]
    rw [if_neg (by norm_num), if_pos h2]
  · intro h
    simp only [computeMetrics]
    rw [h]
    rw [if_neg (by norm_num)]
    exact round2_zero
  · intro h
    simp only [computeMetrics]
    rw [h]
    rw [if_neg (by norm_num)]
    exact round2_zero
  · simp [monteCarloSimulation]

/-- **C9, witness.**  The hypotheses are satisfiable: a single winning
trade has no losers and positive gross profit, and the all-zero `sqrt`
interpretation on an empty return list zeroes both denominators. -/
theorem c9_witness :
    ((c9Trades.filter (fun t => t.netPnL ≤ 0)) = [] ∧
      0 < ((c9Trades.filter (fun t => t.netPnL > 0)).map (·.netPnL)).sum) ∧
    (computeMetrics zeroSqrt c9Trades [] [] 5).profitFactor = .inf ∧
    (stdDailyReturn zeroSqrt [] * zeroSqrt 252 = 0 ∧
      (computeMetrics zeroSqrt c9Trades [] [] 5).sharpeRatio = 0) ∧
    (downsideStd zeroSqrt [] = 0 ∧
      (computeMetrics zeroSqrt c9Trades [] [] 5).sortinoRatio = 0) := by
  have h1 : (c9Trades.filter (fun t => t.netPnL ≤ 0)) = [] := by
    norm_num [c9Trades, List.filter]
  have h2 : 0 < ((c9Trades.filter (fun t => t.netPnL > 0)).map (·.netPnL)).sum := by
    norm_num [c9Trades, List.filter]
  have h3 : stdDailyReturn zeroSqrt [] * zeroSqrt 252 = 0 := by
    norm_num [stdDailyReturn, zeroSqrt]
  have h4 : downsideStd zeroSqrt [] = 0 := by
    norm_num [downsideStd, zeroSqrt, List.filter]
  have h := c9_degeneracy_fallbacks zeroSqrt c9Trades [] [] 5 3
  exact ⟨⟨h1, h2⟩, h.2.1 h1 h2, ⟨h3, h.2.2.1 h3⟩, ⟨h4, h.2.2.2.1 h4⟩⟩

/-! ### Claim C3 -/

/-- **C3.**  Scenario A/B: with `confirmationType='close'`, fixed-shares
sizing of 100, volume confirmation satisfied, and partial profits and
trailing stop disabled, a 15-minute opening range with high 101.00 and low
100.00 followed by a candle closing at 101.50 opens exactly one LONG trade
with `entryPrice = 101.50` and stop `99.90 = 100.00 − 0.10`; the next
candle's low 99.80 ≤ 99.90 closes that trade at exit price 99.90 with
reason "Stop Loss" and `totalPnL = (99.90 − 101.50) × 100 = −160.00`. -/
theorem c3_scenario_entry_and_stop :
    (runDayState scenarioCandles scenarioConfig 100000 1).active =
      some scenarioActiveTrade ∧
    (runDay scenarioCandles scenarioConfig 100000).trades =
      [scenarioClosedTrade] := by
  constructor
  · norm_num [runDayState, computeOpeningRange, scenarioCandles, scenarioConfig,
      DEFAULT_CONFIG, step, tryEntry, processActive, exitCheck, exitTruthy,
      applyPartials, applyPartialsGo, applyTrailing, trackExcursion, mkClosed,
      calculatePositionSize, dirSign, initDayState, round2, round3, roundTo,
      jsRound, jsFloor, scenarioActiveTrade, lastOfCons, lastElem?,
      List.foldl, List.take, List.drop]
  · norm_num [runDay, computeOpeningRange, scenarioCandles, scenarioConfig,
      DEFAULT_CONFIG, step, tryEntry, processActive, exitCheck, exitTruthy,
      applyPartials, applyPartialsGo, applyTrailing, trackExcursion, mkClosed,
      endOfDayClose, calculatePositionSize, dirSign, initDayState, round2,
      round3, roundTo, jsRound, jsFloor, scenarioClosedTrade, lastOfCons,
      lastElem?, List.foldl, List.take, List.drop]

end GoodLife
